import Mathlib

/-!
# Israeli zipcode lookup (`src/app.js`): a shallow embedding

JavaScript strings are modelled as `List Char`: the text of a response is decoded,
well-formed Unicode, and the patterns and markers of the source are ASCII.  The regular
expressions of the source are modelled by sequential matchers: a matcher consumes the
front of the text and `regexSearch` tries the start positions from left to right, as
`String.prototype.match` and `RegExp.prototype.test` do for a pattern without flags.

`getZipCode` is modelled as a function of the cache before the call, the argument, the
readings of `Date.now()` and the behaviour of the transport; it returns what the callback
receives, the cache after the call and the requests issued.  The callback is taken to
return normally.
-/

namespace Mikud

/-! ## Regular-expression building blocks -/

/-- The class `\d` of a regular expression without the `u` flag: `0` to `9`. -/
def isDigitChar (c : Char) : Bool := decide (48 ≤ c.toNat) && decide (c.toNat ≤ 57)

/-- The class `[1-9]`. -/
def isNonZeroDigitChar (c : Char) : Bool := decide (49 ≤ c.toNat) && decide (c.toNat ≤ 57)

/-- Match the literal `lit` at the front of `s`; the result is the text after it. -/
def matchLiteral : List Char → List Char → Option (List Char)
  | [], s => some s
  | _ :: _, [] => none
  | l :: ls, c :: cs => if l = c then matchLiteral ls cs else none

/-- The pattern `\d{n}` at the front of `s`: the digits matched and the text after them. -/
def matchDigitsExact : Nat → List Char → Option (List Char × List Char)
  | 0, s => some ([], s)
  | _ + 1, [] => none
  | n + 1, c :: cs =>
    if isDigitChar c then
      match matchDigitsExact n cs with
      | some (ds, rest) => some (c :: ds, rest)
      | none => none
    else none

/-- The longest run of digits at the front of `s` (the greedy `\d*`). -/
def takeDigits : List Char → List Char
  | [] => []
  | c :: cs => if isDigitChar c then c :: takeDigits cs else []

/-- The pattern `\d+` at the front of `s`, greedy: the digits matched, if there is one. -/
def matchDigitsPlus (s : List Char) : Option (List Char) :=
  match takeDigits s with
  | [] => none
  | d :: ds => some (d :: ds)

/-- Leftmost search: try the matcher at every start position, first to last. -/
def regexSearch {α : Type} (m : List Char → Option α) : List Char → Option α
  | [] => m []
  | c :: cs =>
    match m (c :: cs) with
    | some r => some r
    | none => regexSearch m cs

/-! ## `isValidIsraeliZipcode` -/

/-- The test `/^[1-9]\d{6}$/.test(zipcode)`. -/
def isValidIsraeliZipcode (zipcode : List Char) : Bool :=
  match zipcode with
  | [] => false
  | c :: cs =>
    isNonZeroDigitChar c &&
      (match matchDigitsExact 6 cs with
       | some (_, []) => true
       | _ => false)

/-! ## Built-in string operations used by the source -/

/-- `String.prototype.startsWith`. -/
def startsWith (s p : List Char) : Bool := p.isPrefixOf s

/-- `String.prototype.includes`: does `sub` occur in `s` as a contiguous run. -/
def includes : List Char → List Char → Bool
  | [], sub => sub.isEmpty
  | c :: cs, sub => sub.isPrefixOf (c :: cs) || includes cs sub

/-- Lower case of an ASCII character: `A` to `Z` go to `a` to `z`, the rest stays. -/
def asciiLower (c : Char) : Char :=
  if 65 ≤ c.toNat ∧ c.toNat ≤ 90 then Char.ofNat (c.toNat + 32) else c

/-- `String.prototype.toLowerCase` on the text that follows `before`.  An ASCII
character is mapped by `asciiLower`, whatever stands around it.  The lower case of a
character outside ASCII comes from the Unicode case tables of the host, which the
source does not contain: `unicodeLower before c after` is what they give for `c` between
`before` and `after`. -/
def toLowerCaseFrom (unicodeLower : List Char → Char → List Char → List Char) :
    List Char → List Char → List Char
  | _, [] => []
  | before, c :: cs =>
    (if c.toNat < 128 then [asciiLower c] else unicodeLower before c cs) ++
      toLowerCaseFrom unicodeLower (before ++ [c]) cs

/-- `String.prototype.toLowerCase`. -/
def toLowerCase (unicodeLower : List Char → Char → List Char → List Char)
    (s : List Char) : List Char :=
  toLowerCaseFrom unicodeLower [] s

/-- White space and line terminators, the characters `String.prototype.trim` removes. -/
def isTrimChar (c : Char) : Bool :=
  let n := c.toNat
  decide (9 ≤ n ∧ n ≤ 13) || n == 32 || n == 160 || n == 5760 ||
    decide (8192 ≤ n ∧ n ≤ 8202) || n == 8232 || n == 8233 || n == 8239 || n == 8287 ||
    n == 12288 || n == 65279

/-- `String.prototype.trim`. -/
def trim (s : List Char) : List Char :=
  ((s.dropWhile isTrimChar).reverse.dropWhile isTrimChar).reverse

/-- Upper-case hexadecimal digit of a number below 16. -/
def hexUpper (d : Nat) : Char :=
  if d < 10 then Char.ofNat (48 + d) else Char.ofNat (55 + d)

/-- The UTF-8 bytes of a character. -/
def utf8Bytes (c : Char) : List Nat :=
  let n := c.toNat
  if n < 128 then [n]
  else if n < 2048 then [192 + n / 64, 128 + n % 64]
  else if n < 65536 then [224 + n / 4096, 128 + n / 64 % 64, 128 + n % 64]
  else [240 + n / 262144, 128 + n / 4096 % 64, 128 + n / 64 % 64, 128 + n % 64]

/-- The characters `encodeURIComponent` leaves as they are: letters, digits and
`- _ . ! ~ * ( )` and the apostrophe. -/
def isUriUnreserved (c : Char) : Bool :=
  let n := c.toNat
  decide (65 ≤ n ∧ n ≤ 90) || decide (97 ≤ n ∧ n ≤ 122) || decide (48 ≤ n ∧ n ≤ 57) ||
    n == 45 || n == 95 || n == 46 || n == 33 || n == 126 || n == 42 || n == 39 ||
    n == 40 || n == 41

/-- `encodeURIComponent` on a string. -/
def encodeURIComponent (s : List Char) : List Char :=
  s.flatMap fun c =>
    if isUriUnreserved c then [c]
    else (utf8Bytes c).flatMap fun b => ['%', hexUpper (b / 16), hexUpper (b % 16)]

/-- The double nearest to a natural number, ties going to the even significand: the
number a JavaScript source or argument with this integer value is.  A number below
`2 ^ 53` is itself a double.  The range of the exponent is left out: the doubles end
below `2 ^ 1024`. -/
def toDouble (v : Nat) : Nat :=
  if v < 2 ^ 53 then v
  else
    let e := (Nat.toDigits 2 v).length - 53
    let q := v / 2 ^ e
    let r := v % 2 ^ e
    if 2 ^ e < 2 * r ∨ (2 * r = 2 ^ e ∧ q % 2 = 1) then (q + 1) * 2 ^ e else q * 2 ^ e

/-- The two multiples of `10 ^ j` next to `v`, the nearer one first and, at equal
distance, the one with the even multiplier first. -/
def decimalCandidates (v j : Nat) : List Nat :=
  let p := 10 ^ j
  let lo := v / p * p
  let hi := lo + p
  if v - lo < hi - v then [lo, hi]
  else if hi - v < v - lo then [hi, lo]
  else if v / p % 2 = 0 then [lo, hi] else [hi, lo]

/-- The decimal `Number::toString` writes for the double `d` with an integer value: the
one with the fewest significant digits among the decimals whose nearest double is `d`,
and the nearest to `d` among these.  Below `2 ^ 53` it is `d` itself. -/
def shortestDecimal (d : Nat) : Nat :=
  if d < 2 ^ 53 then d
  else
    match (((List.range ((Nat.toDigits 10 d).length + 1)).reverse.flatMap
        (decimalCandidates d)).find? fun c => decide (c ≠ 0) && decide (toDouble c = d)) with
    | some c => c
    | none => d

/-- A numeral without the zeros at its end. -/
def stripZeros (ds : List Char) : List Char :=
  (ds.reverse.dropWhile fun c => c == '0').reverse

/-- The text of `Number::toString` for the decimal chosen: all digits when there are at
most 21 of them, otherwise the significant digits with a point after the first one,
`e+` and the exponent. -/
def formatDecimal (v : Nat) : List Char :=
  let ds := Nat.toDigits 10 v
  if ds.length ≤ 21 then ds
  else
    match stripZeros ds with
    | [] => ds
    | [d] => d :: 'e' :: '+' :: Nat.toDigits 10 (ds.length - 1)
    | d :: rest => d :: '.' :: (rest ++ 'e' :: '+' :: Nat.toDigits 10 (ds.length - 1))

/-- The text of a number with an integer value, `Number::toString`: the number is the
double nearest to `n`; a safe integer is written as its decimal numeral, 2 ^ 64 as
18446744073709552000 and 10 ^ 21 as 1e+21. -/
def intToString (n : Int) : List Char :=
  if n < 0 then '-' :: formatDecimal (shortestDecimal (toDouble n.natAbs))
  else formatDecimal (shortestDecimal (toDouble n.toNat))

/-- The integers that are JavaScript numbers: the finite doubles with an integer value,
that is the integers that rounding leaves as they are and that have at most 1024 binary
digits. -/
def isDoubleInt (n : Int) : Bool :=
  decide (toDouble n.natAbs = n.natAbs) && decide ((Nat.toDigits 2 n.natAbs).length ≤ 1024)

/-- The characters of the text of a number. -/
def isNumberChar (c : Char) : Bool :=
  isDigitChar c || c == '.' || c == 'e' || c == '+' || c == '-'

/-! ## Values, addresses and the cache key -/

/-- A field of an address: absent, a string, or a number with an integer value;
`number n` is the double nearest to `n`, and it is `n` exactly when `isDoubleInt n`. -/
inductive Value where
  | undefined
  | string (s : List Char)
  | number (n : Int)
  deriving DecidableEq, Repr

/-- A value of JavaScript: a number has to be a double. -/
def Value.isJS : Value → Bool
  | .number n => isDoubleInt n
  | _ => true

/-- Truthiness of a value: `undefined`, the empty string and `0` are falsy. -/
def Value.truthy : Value → Bool
  | .undefined => false
  | .string s => !s.isEmpty
  | .number n => n != 0

/-- String form of a defined value (`toString()`, and the conversion made by
`encodeURIComponent`). -/
def Value.toStr : Value → List Char
  | .undefined => "undefined".toList
  | .string s => s
  | .number n => intToString n

/-- The four fields `getZipCode` reads from its argument. -/
structure Address where
  city : Value
  street : Value
  houseNumber : Value
  entrance : Value
  deriving DecidableEq, Repr

/-- An address whose fields are values of JavaScript. -/
def Address.isJS (a : Address) : Bool :=
  a.city.isJS && a.street.isJS && a.houseNumber.isJS && a.entrance.isJS

/-- The argument of `getZipCode`: any JavaScript value.  Of an object only the four
fields read matter. -/
inductive Input where
  | null
  | undefined
  | boolean (b : Bool)
  | number (n : Int)
  | string (s : List Char)
  | object (a : Address)
  deriving DecidableEq, Repr

/-- Lower-case hexadecimal digit of a number below 16. -/
def hexLower (d : Nat) : Char :=
  if d < 10 then Char.ofNat (48 + d) else Char.ofNat (87 + d)

/-- One character inside a JSON string literal (`QuoteJSONString`). -/
def jsonEscapeChar (c : Char) : List Char :=
  let n := c.toNat
  if n = 8 then [Char.ofNat 92, 'b']
  else if n = 9 then [Char.ofNat 92, 't']
  else if n = 10 then [Char.ofNat 92, 'n']
  else if n = 12 then [Char.ofNat 92, 'f']
  else if n = 13 then [Char.ofNat 92, 'r']
  else if n = 34 then [Char.ofNat 92, Char.ofNat 34]
  else if n = 92 then [Char.ofNat 92, Char.ofNat 92]
  else if n < 32 then [Char.ofNat 92, 'u', '0', '0', hexLower (n / 16), hexLower (n % 16)]
  else [c]

/-- A string as a JSON string literal. -/
def jsonQuote (s : List Char) : List Char :=
  Char.ofNat 34 :: (s.flatMap jsonEscapeChar ++ [Char.ofNat 34])

/-- `JSON.stringify` of a value that is defined. -/
def jsonValue : Value → Option (List Char)
  | .undefined => none
  | .string s => some (jsonQuote s)
  | .number n => some (intToString n)

/-- `JSON.stringify` of an object given as its properties in order: a property whose
value is `undefined` is left out. -/
def jsonStringify (props : List (List Char × Value)) : List Char :=
  let members := props.filterMap fun kv =>
    match jsonValue kv.2 with
    | some v => some (jsonQuote kv.1 ++ ':' :: v)
    | none => none
  Char.ofNat 123 :: ((List.intersperse [','] members).flatten ++ [Char.ofNat 125])

/-- The members of an object as `jsonStringify` writes them, each one preceded by a
comma: the text between the braces is this with the first comma removed. -/
def jsonMembers : List (List Char × Value) → List Char
  | [] => []
  | (k, v) :: ps =>
    (match jsonValue v with
     | some e => ',' :: (jsonQuote k ++ ':' :: e)
     | none => []) ++ jsonMembers ps

/-- The cache key built in `getZipCode`. -/
def cacheKeyOf (address : Address) : List Char :=
  jsonStringify
    [("city".toList, address.city), ("street".toList, address.street),
     ("houseNumber".toList, address.houseNumber), ("entrance".toList, address.entrance)]

/-! ## `objToParams` -/

/-- The query string of an object given as its properties in key order. -/
def objToParams (obj : List (List Char × Value)) : List Char :=
  (List.intersperse ['&']
    ((obj.filter fun kv => kv.2.truthy && decide (trim kv.2.toStr ≠ [])).map fun kv =>
      kv.1 ++ '=' :: encodeURIComponent kv.2.toStr)).flatten

/-- The constant `ISRAEL_POST_URL`. -/
def ISRAEL_POST_URL : List Char :=
  "http://www.israelpost.co.il/zip_data1.nsf/SearchZip?OpenAgent&".toList

/-- The request address built in `getZipCode`. -/
def requestUri (address : Address) : List Char :=
  ISRAEL_POST_URL ++ objToParams
    [("Location".toList, address.city), ("Street".toList, address.street),
     ("House".toList, address.houseNumber), ("Entrance".toList, address.entrance)]

/-! ## `isCaptchaProtected` -/

/-- The list `captchaIndicators`. -/
def captchaIndicators : List (List Char) :=
  ["radware captcha".toList, "captcha page".toList, "shieldsquare".toList,
   "perfdrive.com".toList, "protection service".toList, "access denied".toList,
   "blocked".toList]

/-- Detect a captcha or protection page. -/
def isCaptchaProtected (unicodeLower : List Char → Char → List Char → List Char)
    (body : List Char) : Bool :=
  let lowerBody := toLowerCase unicodeLower body
  captchaIndicators.any fun indicator => includes lowerBody indicator

/-! ## The cache: a `Map` in insertion order -/

/-- The constant `CACHE_TTL`, in milliseconds. -/
def CACHE_TTL : Int := 5 * 60 * 1000

/-- What the cache stores for a key. -/
structure CacheEntry where
  zipcode : List Char
  timestamp : Int
  deriving DecidableEq, Repr

/-- The module-level `cache`: the entries of the `Map`, oldest insertion first. -/
abbrev Cache := List (List Char × CacheEntry)

/-- A `Map` holds a key once. -/
def Cache.WF (cache : Cache) : Prop := (cache.map Prod.fst).Nodup

instance (cache : Cache) : Decidable cache.WF :=
  inferInstanceAs (Decidable (cache.map Prod.fst).Nodup)

/-- `Map.prototype.get`. -/
def mapGet : Cache → List Char → Option CacheEntry
  | [], _ => none
  | (k, v) :: rest, key => if k = key then some v else mapGet rest key

/-- `Map.prototype.set`: a key already present keeps its place and takes the new value,
a new key goes to the end. -/
def mapSet : Cache → List Char → CacheEntry → Cache
  | [], key, v => [(key, v)]
  | (k, w) :: rest, key, v =>
    if k = key then (k, v) :: rest else (k, w) :: mapSet rest key v

/-- `Map.prototype.delete`. -/
def mapDelete (cache : Cache) (key : List Char) : Cache :=
  cache.filter fun kv => decide (kv.1 ≠ key)

/-- The loop `for (const [key, value] of cache.entries())` of the clean-up: `todo` holds
the entries still to visit, `cache` is the map as it stands. -/
def sweepLoop (now : Int) : List (List Char × CacheEntry) → Cache → Cache
  | [], cache => cache
  | (key, value) :: todo, cache =>
    if now - value.timestamp > CACHE_TTL then sweepLoop now todo (mapDelete cache key)
    else sweepLoop now todo cache

/-! ## `getZipCode` -/

/-- What a rejected `fetch` (or a rejected `response.text()`) throws: the fields of the
error the `catch` block reads. -/
structure FetchError where
  name : List Char
  code : Option (List Char)
  message : List Char
  deriving DecidableEq, Repr

/-- A response of the transport: status line and the outcome of reading the body. -/
structure Response where
  status : Nat
  statusText : List Char
  text : Except FetchError (List Char)

/-- The flag `response.ok`: the status is in the range 200 to 299. -/
def Response.ok (r : Response) : Bool := decide (200 ≤ r.status) && decide (r.status ≤ 299)

/-- The values `Date.now()` returns at its three call sites in `getZipCode`. -/
structure Clock where
  atCheck : Int
  atSet : Int
  atSweep : Int
  deriving DecidableEq, Repr

/-- The arguments the callback is called with: an error message, or `undefined` and a
zipcode. -/
inductive CallbackArgs where
  | error (message : List Char)
  | zipcode (z : List Char)
  deriving DecidableEq, Repr

/-- One completed call of `getZipCode`: what the callback received, the cache afterwards
and the addresses requested from the network. -/
structure Outcome where
  result : CallbackArgs
  cache : Cache
  requests : List (List Char)
  deriving DecidableEq, Repr

/-- Message for an argument that is not an object. -/
def msgInvalidInput : List Char := "Invalid address object provided".toList

/-- Message for a status outside the success range. -/
def msgHttpError (status : Nat) (statusText : List Char) : List Char :=
  "HTTP error: ".toList ++ Nat.toDigits 10 status ++ ' ' :: statusText

/-- Message for a captcha or protection page. -/
def msgBotProtection : List Char :=
  ("Israeli Post service is currently protected by anti-bot measures. " ++
    "Please try again later or use manual lookup at israelpost.co.il").toList

/-- Message for seven digits that are no zipcode. -/
def msgMalformedZip : List Char :=
  "Invalid zipcode format received from Israeli Post".toList

/-- Message for a response code starting with 0, 1 or 2. -/
def msgAddressNotFound : List Char := "Address not found in Israeli Post database".toList

/-- Message for another response code not starting with 8. -/
def msgUpstreamError (resCode : List Char) : List Char :=
  "Israeli Post returned error code: ".toList ++ resCode

/-- Message for a response code starting with 8 outside the success pattern. -/
def msgUnexpectedFormat : List Char :=
  "Unexpected zipcode format from Israeli Post service".toList

/-- Message for a body without any response code. -/
def msgServiceUnavailable : List Char :=
  ("Israeli Post service is currently unavailable. " ++
    "You can manually lookup zipcodes at israelpost.co.il or try again later.").toList

/-- Message for an aborted request. -/
def msgTimeout : List Char :=
  ("Request timeout - Israeli Post service might be slow or protected. " ++
    "Please try again later.").toList

/-- Message for a host that cannot be reached. -/
def msgNetworkUnavailable : List Char :=
  ("Network error - unable to reach Israeli Post service. " ++
    "Please check your internet connection.").toList

/-- Message for any other error thrown. -/
def msgOtherError (message : List Char) : List Char :=
  "Error calling Israeli Post: ".toList ++ message ++
    ". The service might be temporarily unavailable.".toList

/-- The pattern `/RES8(\d{7})/` at the front of `s`: the group captured. -/
def matchRES8 (s : List Char) : Option (List Char) :=
  match matchLiteral ['R', 'E', 'S', '8'] s with
  | some rest =>
    match matchDigitsExact 7 rest with
    | some (zipcode, _) => some zipcode
    | none => none
  | none => none

/-- The pattern `/RES(\d+)/` at the front of `s`: the group captured. -/
def matchRES (s : List Char) : Option (List Char) :=
  match matchLiteral ['R', 'E', 'S'] s with
  | some rest => matchDigitsPlus rest
  | none => none

/-- The `catch` block of `getZipCode`: the message for an error thrown. -/
def catchMessage (error : FetchError) : List Char :=
  if error.name = "AbortError".toList then msgTimeout
  else if error.code = some "ENOTFOUND".toList ∨ error.code = some "ECONNREFUSED".toList then
    msgNetworkUnavailable
  else msgOtherError error.message

/-- The cache write of `getZipCode` on success: `cache.set` with the time of the write,
then, when `cache.size > 100`, the clean-up loop with its own reading of the time. -/
def cachePut (cache : Cache) (cacheKey zipcode : List Char) (clock : Clock) : Cache :=
  let cache1 := mapSet cache cacheKey { zipcode := zipcode, timestamp := clock.atSet }
  if cache1.length > 100 then sweepLoop clock.atSweep cache1 cache1 else cache1

/-- The part of `getZipCode` after `response.text()`: classify the body, and on success
store the zipcode and clean the cache.  The result is what the callback receives and
the cache afterwards.  (The group captured by `/RES8(\d{7})/` has seven characters, so
the test `resMatch[1]` adds nothing to `resMatch`.) -/
def handleBody (unicodeLower : List Char → Char → List Char → List Char)
    (cache : Cache) (cacheKey : List Char) (clock : Clock) (body : List Char) :
    CallbackArgs × Cache :=
  if isCaptchaProtected unicodeLower body then (.error msgBotProtection, cache)
  else
    match regexSearch matchRES8 body with
    | some zipcode =>
      if !isValidIsraeliZipcode zipcode then (.error msgMalformedZip, cache)
      else
        (.zipcode zipcode, cachePut cache cacheKey zipcode clock)
    | none =>
      match regexSearch matchRES body with
      | some resCode =>
        if startsWith resCode ['0'] || startsWith resCode ['1'] || startsWith resCode ['2'] then
          (.error msgAddressNotFound, cache)
        else if !startsWith resCode ['8'] then (.error (msgUpstreamError resCode), cache)
        else (.error msgUnexpectedFormat, cache)
      | none => (.error msgServiceUnavailable, cache)

/-- The part of `getZipCode` from `fetch` on: `net` is what the transport does with the
request. -/
def handleFetch (unicodeLower : List Char → Char → List Char → List Char)
    (cache : Cache) (cacheKey : List Char) (clock : Clock)
    (net : Except FetchError Response) : CallbackArgs × Cache :=
  match net with
  | .error e => (.error (catchMessage e), cache)
  | .ok response =>
    if !response.ok then (.error (msgHttpError response.status response.statusText), cache)
    else
      match response.text with
      | .error e => (.error (catchMessage e), cache)
      | .ok body => handleBody unicodeLower cache cacheKey clock body

/-- The cache check of `getZipCode`: `cache.get(cacheKey)` and the test
`cached && Date.now() - cached.timestamp < CACHE_TTL`; the zipcode served from the cache,
if there is one. -/
def cacheLookup (cache : Cache) (cacheKey : List Char) (now : Int) : Option (List Char) :=
  match mapGet cache cacheKey with
  | some cached => if now - cached.timestamp < CACHE_TTL then some cached.zipcode else none
  | none => none

/-- The function `getZipCode`, one call: `cache` is the module-level map before the
call, `clock` the readings of `Date.now()`, `net` the behaviour of the transport for the
request of this call.  The request is represented by its address; its headers are the
same in every call up to the `User-Agent` drawn at random. -/
def getZipCode (unicodeLower : List Char → Char → List Char → List Char)
    (cache : Cache) (address : Input) (clock : Clock)
    (net : Except FetchError Response) : Outcome :=
  match address with
  | .object a =>
    let cacheKey := cacheKeyOf a
    match cacheLookup cache cacheKey clock.atCheck with
    | some zipcode => { result := .zipcode zipcode, cache := cache, requests := [] }
    | none =>
      let uri := requestUri a
      let r := handleFetch unicodeLower cache cacheKey clock net
      { result := r.1, cache := r.2, requests := [uri] }
  | _ => { result := .error msgInvalidInput, cache := cache, requests := [] }

/-- Every entry of the cache holds a zipcode that `isValidIsraeliZipcode` accepts. -/
def Cache.AllValid (cache : Cache) : Prop :=
  ∀ kv ∈ cache, isValidIsraeliZipcode kv.2.zipcode = true

/-! ## Sequences of calls -/

/-- One call of `getZipCode` as the environment determines it: the argument, the readings
of the clock and the behaviour of the transport. -/
structure Call where
  address : Input
  clock : Clock
  net : Except FetchError Response

/-- Calls of `getZipCode` one after the other on the module-level cache: the cache after
the last call and what the callbacks received, in order. -/
def runCalls (unicodeLower : List Char → Char → List Char → List Char) :
    Cache → List Call → Cache × List CallbackArgs
  | cache, [] => (cache, [])
  | cache, c :: cs =>
    let o := getZipCode unicodeLower cache c.address c.clock c.net
    let r := runCalls unicodeLower o.cache cs
    (r.1, o.result :: r.2)

/-! ## Sample inputs -/

/-- A host whose case tables leave every character outside ASCII as it is. -/
def plainLower : List Char → Char → List Char → List Char := fun _ c _ => [c]

/-- The first address of `src/test.js`, with the names in Latin letters. -/
def sampleAddress : Address :=
  { city := .string "Tel Aviv".toList, street := .string "Frishman".toList,
    houseNumber := .number 7, entrance := .number 1 }

/-- The sample address with house number `i` and no entrance. -/
def sampleAddressAt (i : Nat) : Address :=
  { city := .string "Tel Aviv".toList, street := .string "Frishman".toList,
    houseNumber := .number i, entrance := .undefined }

/-- A cache of `n` entries, for the house numbers below `n`, stored at the given times. -/
def sampleCache (n : Nat) (timestamp : Nat → Int) : Cache :=
  (List.range n).map fun i =>
    (cacheKeyOf (sampleAddressAt i), { zipcode := "1234567".toList, timestamp := timestamp i })

/-- The house number written in a key of `sampleCache`: the digits after the first 53
characters of the key. -/
def sampleKeyIndex (key : List Char) : Nat :=
  (takeDigits (key.drop 53)).foldl (fun n c => 10 * n + (c.toNat - 48)) 0

/-- The address `{}` of the error-handling test of `src/test.js`. -/
def emptyAddress : Address :=
  { city := .undefined, street := .undefined, houseNumber := .undefined,
    entrance := .undefined }

/-- A response with status 200 and the given body. -/
def okResponse (body : List Char) : Except FetchError Response :=
  .ok { status := 200, statusText := "OK".toList, text := .ok body }

/-! ## Facts about the matchers -/

theorem isDigitChar_iff (c : Char) : isDigitChar c = true ↔ '0' ≤ c ∧ c ≤ '9' := by
  simp only [isDigitChar, Bool.and_eq_true, decide_eq_true_eq, Char.le_def]
  rfl

theorem isNonZeroDigitChar_iff (c : Char) : isNonZeroDigitChar c = true ↔ '1' ≤ c ∧ c ≤ '9' := by
  simp only [isNonZeroDigitChar, Bool.and_eq_true, decide_eq_true_eq, Char.le_def]
  rfl

theorem matchLiteral_eq_some (lit s rest : List Char) :
    matchLiteral lit s = some rest ↔ s = lit ++ rest := by
  induction lit generalizing s with
  | nil => simp [matchLiteral, eq_comm]
  | cons l ls ih =>
    cases s with
    | nil => simp [matchLiteral]
    | cons c cs =>
      by_cases h : l = c
      · simp [matchLiteral, h, ih]
      · simp [matchLiteral, h, Ne.symm h]

theorem matchDigitsExact_append (ds rest : List Char)
    (h : ∀ c ∈ ds, isDigitChar c = true) :
    matchDigitsExact ds.length (ds ++ rest) = some (ds, rest) := by
  induction ds with
  | nil => simp [matchDigitsExact]
  | cons d ds ih =>
    have hd : isDigitChar d = true := h d (List.mem_cons_self _ _)
    have ih1 := ih fun c hc => h c (List.mem_cons_of_mem _ hc)
    simp [matchDigitsExact, hd, ih1]

theorem matchDigitsExact_sound (n : Nat) (s ds rest : List Char)
    (h : matchDigitsExact n s = some (ds, rest)) :
    s = ds ++ rest ∧ ds.length = n ∧ ∀ c ∈ ds, isDigitChar c = true := by
  induction n generalizing s ds with
  | zero =>
    simp only [matchDigitsExact, Option.some.injEq, Prod.mk.injEq] at h
    obtain ⟨rfl, rfl⟩ := h
    simp
  | succ n ih =>
    cases s with
    | nil => simp [matchDigitsExact] at h
    | cons c cs =>
      by_cases hc : isDigitChar c = true
      · simp only [matchDigitsExact, hc, if_true] at h
        cases hm : matchDigitsExact n cs with
        | none => simp [hm] at h
        | some p =>
          obtain ⟨ds0, rest0⟩ := p
          simp only [hm, Option.some.injEq, Prod.mk.injEq] at h
          obtain ⟨rfl, rfl⟩ := h
          obtain ⟨h1, h2, h3⟩ := ih cs ds0 hm
          refine ⟨by simp [h1], by simp [h2], ?_⟩
          intro x hx
          rcases List.mem_cons.1 hx with rfl | hx
          · exact hc
          · exact h3 x hx
      · simp [matchDigitsExact, hc] at h

theorem matchDigitsExact_eq_some (n : Nat) (s ds rest : List Char) :
    matchDigitsExact n s = some (ds, rest) ↔
      s = ds ++ rest ∧ ds.length = n ∧ ∀ c ∈ ds, isDigitChar c = true := by
  constructor
  · exact matchDigitsExact_sound n s ds rest
  · rintro ⟨rfl, rfl, h⟩
    exact matchDigitsExact_append ds rest h

/-- C1. `isValidIsraeliZipcode` returns a boolean for every string, and it returns `true`
exactly for the strings of seven characters that are all decimal digits and whose first
character is a digit from 1 to 9; it accepts "1234567" and "9999999" and rejects "0123456",
"123456", "12345678" and "abcdefg". -/
theorem isValidIsraeliZipcode_iff :
    (∀ s : List Char, isValidIsraeliZipcode s = true ↔
      s.length = 7 ∧ (∀ c ∈ s, '0' ≤ c ∧ c ≤ '9') ∧
        ∃ c, s.head? = some c ∧ '1' ≤ c ∧ c ≤ '9') ∧
    (∀ s : List Char, isValidIsraeliZipcode s = true ∨ isValidIsraeliZipcode s = false) ∧
    isValidIsraeliZipcode "1234567".toList = true ∧
    isValidIsraeliZipcode "9999999".toList = true ∧
    isValidIsraeliZipcode "0123456".toList = false ∧
    isValidIsraeliZipcode "123456".toList = false ∧
    isValidIsraeliZipcode "12345678".toList = false ∧
    isValidIsraeliZipcode "abcdefg".toList = false := by
  refine ⟨?_, ?_, by decide, by decide, by decide, by decide, by decide, by decide⟩
  · intro s
    cases s with
    | nil => simp [isValidIsraeliZipcode]
    | cons c cs =>
      have key : (match matchDigitsExact 6 cs with
          | some (_, []) => true
          | _ => false) = true ↔ cs.length = 6 ∧ ∀ x ∈ cs, isDigitChar x = true := by
        constructor
        · intro h
          split at h
          · next ds hm =>
            have := (matchDigitsExact_eq_some 6 cs ds []).1 hm
            simp only [List.append_nil] at this
            obtain ⟨rfl, h2, h3⟩ := this
            exact ⟨h2, h3⟩
          · simp at h
        · rintro ⟨h1, h2⟩
          have := (matchDigitsExact_eq_some 6 cs cs []).2 ⟨by simp, h1, h2⟩
          simp [this]
      simp only [isValidIsraeliZipcode, Bool.and_eq_true, key, isNonZeroDigitChar_iff,
        List.length_cons, List.mem_cons, forall_eq_or_imp, List.head?_cons, Option.some.injEq,
        exists_eq_left', isDigitChar_iff]
      constructor
      · rintro ⟨⟨h1, h2⟩, h3, h4⟩
        refine ⟨by omega, ⟨⟨?_, h2⟩, h4⟩, h1, h2⟩
        exact le_trans (by decide) h1
      · rintro ⟨h1, ⟨-, h4⟩, h5, h6⟩
        exact ⟨⟨h5, h6⟩, by omega, h4⟩
  · intro s
    cases isValidIsraeliZipcode s <;> simp

/-! ## Facts about the leftmost search -/

theorem regexSearch_eq_none {α : Type} (m : List Char → Option α) (s : List Char) :
    regexSearch m s = none ↔ ∀ p q, s = p ++ q → m q = none := by
  induction s with
  | nil =>
    simp only [regexSearch]
    constructor
    · intro h p q hpq
      have : q = [] := by
        cases p with
        | nil => simpa using hpq.symm
        | cons _ _ => simp at hpq
      rw [this]; exact h
    · intro h; exact h [] [] rfl
  | cons c cs ih =>
    simp only [regexSearch]
    cases hm : m (c :: cs) with
    | some r =>
      simp only [false_iff, reduceCtorEq]
      intro h
      have := h [] (c :: cs) rfl
      rw [hm] at this
      cases this
    | none =>
      simp only [ih]
      constructor
      · intro h p q hpq
        cases p with
        | nil => simp only [List.nil_append] at hpq; rw [← hpq]; exact hm
        | cons x p =>
          simp only [List.cons_append, List.cons.injEq] at hpq
          exact h p q hpq.2
      · intro h p q hpq
        exact h (c :: p) q (by simp [hpq])

theorem regexSearch_first {α : Type} (m : List Char → Option α) (pre suf : List Char) (r : α)
    (hm : m suf = some r)
    (hfirst : ∀ p q, pre ++ suf = p ++ q → p.length < pre.length → m q = none) :
    regexSearch m (pre ++ suf) = some r := by
  induction pre with
  | nil =>
    cases suf with
    | nil => simpa [regexSearch] using hm
    | cons c cs => simp [regexSearch, hm]
  | cons c pre ih =>
    have h0 : m (c :: (pre ++ suf)) = none :=
      hfirst [] (c :: (pre ++ suf)) (by simp) (by simp)
    show regexSearch m (c :: (pre ++ suf)) = some r
    rw [regexSearch]
    simp only [h0]
    apply ih
    intro p q hpq hlt
    exact hfirst (c :: p) q (by simp [hpq]) (by simpa using hlt)

theorem regexSearch_sound {α : Type} (m : List Char → Option α) (s : List Char) (r : α)
    (h : regexSearch m s = some r) : ∃ p q, s = p ++ q ∧ m q = some r := by
  induction s with
  | nil => exact ⟨[], [], rfl, by simpa [regexSearch] using h⟩
  | cons c cs ih =>
    simp only [regexSearch] at h
    cases hm : m (c :: cs) with
    | some r0 =>
      simp only [hm, Option.some.injEq] at h
      exact ⟨[], c :: cs, rfl, by rw [hm, h]⟩
    | none =>
      simp only [hm] at h
      obtain ⟨p, q, hpq, hq⟩ := ih h
      exact ⟨c :: p, q, by simp [hpq], hq⟩

theorem matchRES8_eq_some (s z : List Char) :
    matchRES8 s = some z ↔
      ∃ rest, s = ['R', 'E', 'S', '8'] ++ z ++ rest ∧ z.length = 7 ∧
        ∀ c ∈ z, isDigitChar c = true := by
  unfold matchRES8
  constructor
  · intro h
    split at h
    · next rest hl =>
      split at h
      · next zipcode rest2 hd =>
        simp only [Option.some.injEq] at h
        subst h
        obtain ⟨h1, h2, h3⟩ := matchDigitsExact_sound 7 rest zipcode rest2 hd
        refine ⟨rest2, ?_, h2, h3⟩
        rw [(matchLiteral_eq_some _ _ _).1 hl, h1, List.append_assoc]
      · cases h
    · cases h
  · rintro ⟨rest, rfl, h2, h3⟩
    have hl : matchLiteral ['R', 'E', 'S', '8'] (['R', 'E', 'S', '8'] ++ z ++ rest) =
        some (z ++ rest) := (matchLiteral_eq_some _ _ _).2 (by simp)
    have hd := matchDigitsExact_append z rest h3
    rw [h2] at hd
    simp only [hl, hd]

/-! ## Facts about `includes` and `toLowerCase` -/

theorem includes_iff (s sub : List Char) : includes s sub = true ↔ sub <:+: s := by
  induction s with
  | nil => simp [includes, List.isEmpty_iff]
  | cons c cs ih =>
    simp only [includes, Bool.or_eq_true, ih, List.infix_cons_iff, List.isPrefixOf_iff_prefix]

theorem isCaptchaProtected_iff (u : List Char → Char → List Char → List Char)
    (body : List Char) :
    isCaptchaProtected u body = true ↔ ∃ m ∈ captchaIndicators, m <:+: toLowerCase u body := by
  simp only [isCaptchaProtected, List.any_eq_true, includes_iff]

theorem toLowerCaseFrom_append (u : List Char → Char → List Char → List Char)
    (before a s : List Char) :
    ∃ x, toLowerCaseFrom u before (a ++ s) = x ++ toLowerCaseFrom u (before ++ a) s := by
  induction a generalizing before with
  | nil => exact ⟨[], by simp⟩
  | cons c a ih =>
    obtain ⟨x, hx⟩ := ih (before ++ [c])
    refine ⟨(if c.toNat < 128 then [asciiLower c] else u before c (a ++ s)) ++ x, ?_⟩
    show toLowerCaseFrom u before (c :: (a ++ s)) = _
    rw [toLowerCaseFrom, hx]
    simp only [List.append_assoc, List.singleton_append]

theorem toLowerCaseFrom_ascii (u : List Char → Char → List Char → List Char)
    (before w s : List Char) (hw : ∀ c ∈ w, c.toNat < 128) :
    toLowerCaseFrom u before (w ++ s) =
      w.map asciiLower ++ toLowerCaseFrom u (before ++ w) s := by
  induction w generalizing before with
  | nil => simp
  | cons c w ih =>
    have hc : c.toNat < 128 := hw c (List.mem_cons_self _ _)
    have := ih (before ++ [c]) fun x hx => hw x (List.mem_cons_of_mem _ hx)
    show toLowerCaseFrom u before (c :: (w ++ s)) = _
    rw [toLowerCaseFrom, this]
    simp only [hc, if_true, List.map_cons, List.append_assoc, List.singleton_append,
      List.cons_append, List.nil_append]

theorem asciiLower_ascii (c : Char) (h : (asciiLower c).toNat < 128) : c.toNat < 128 := by
  unfold asciiLower at h
  split at h
  · omega
  · exact h

theorem captchaIndicators_ascii : ∀ m ∈ captchaIndicators, ∀ c ∈ m, c.toNat < 128 := by
  decide

theorem toLowerCase_infix_of_ascii (u : List Char → Char → List Char → List Char)
    (body w m : List Char) (hm : m ∈ captchaIndicators) (hw : w <:+: body)
    (hwm : w.map asciiLower = m) : m <:+: toLowerCase u body := by
  obtain ⟨p, q, rfl⟩ := hw
  have hascii : ∀ c ∈ w, c.toNat < 128 := by
    intro c hc
    apply asciiLower_ascii
    apply captchaIndicators_ascii m hm
    rw [← hwm]
    exact List.mem_map_of_mem _ hc
  obtain ⟨x, hx⟩ := toLowerCaseFrom_append u [] p (w ++ q)
  have h2 := toLowerCaseFrom_ascii u ([] ++ p) w q hascii
  refine ⟨x, toLowerCaseFrom u ([] ++ p ++ w) q, ?_⟩
  simp only [toLowerCase, List.append_assoc, hx, h2, hwm]

/-! ## `getZipCode`: the path taken -/

theorem getZipCode_of_miss (u : List Char → Char → List Char → List Char) (cache : Cache)
    (a : Address) (clock : Clock) (net : Except FetchError Response)
    (hmiss : cacheLookup cache (cacheKeyOf a) clock.atCheck = none) :
    getZipCode u cache (.object a) clock net =
      { result := (handleFetch u cache (cacheKeyOf a) clock net).1,
        cache := (handleFetch u cache (cacheKeyOf a) clock net).2,
        requests := [requestUri a] } := by
  simp only [getZipCode, hmiss]

theorem getZipCode_of_hit (u : List Char → Char → List Char → List Char) (cache : Cache)
    (a : Address) (clock : Clock) (net : Except FetchError Response) (z : List Char)
    (hhit : cacheLookup cache (cacheKeyOf a) clock.atCheck = some z) :
    getZipCode u cache (.object a) clock net =
      { result := .zipcode z, cache := cache, requests := [] } := by
  simp only [getZipCode, hhit]

theorem handleFetch_of_body (u : List Char → Char → List Char → List Char) (cache : Cache)
    (key : List Char) (clock : Clock) (status : Nat) (statusText body : List Char)
    (hstatus : 200 ≤ status ∧ status ≤ 299) :
    handleFetch u cache key clock
        (.ok { status := status, statusText := statusText, text := .ok body }) =
      handleBody u cache key clock body := by
  simp [handleFetch, Response.ok, hstatus.1, hstatus.2]

theorem cacheLookup_eq_some (cache : Cache) (key : List Char) (now : Int) (z : List Char) :
    cacheLookup cache key now = some z ↔
      ∃ e, mapGet cache key = some e ∧ now - e.timestamp < CACHE_TTL ∧ e.zipcode = z := by
  unfold cacheLookup
  cases hg : mapGet cache key with
  | none => simp
  | some e =>
    by_cases hf : now - e.timestamp < CACHE_TTL
    · simp [hf]
    · simp [hf]

/-- C2. A body received with a successful status, free of bot-protection markers, in which
"RES8" followed by seven digits occurs: the seven digits of the first such occurrence are
the candidate; the call ends with exactly these digits as zipcode when
`isValidIsraeliZipcode` accepts them and with the MalformedZip error otherwise. -/
theorem getZipCode_strict_match (u : List Char → Char → List Char → List Char)
    (cache : Cache) (a : Address) (clock : Clock) (status : Nat)
    (statusText body pre zip post : List Char)
    (hmiss : cacheLookup cache (cacheKeyOf a) clock.atCheck = none)
    (hstatus : 200 ≤ status ∧ status ≤ 299)
    (hbot : ∀ m ∈ captchaIndicators, ¬ m <:+: toLowerCase u body)
    (hbody : body = pre ++ ['R', 'E', 'S', '8'] ++ zip ++ post)
    (hlen : zip.length = 7)
    (hdig : ∀ c ∈ zip, '0' ≤ c ∧ c ≤ '9')
    (hfirst : ∀ pre' zip' post' : List Char,
      body = pre' ++ ['R', 'E', 'S', '8'] ++ zip' ++ post' → zip'.length = 7 →
        (∀ c ∈ zip', '0' ≤ c ∧ c ≤ '9') → pre.length ≤ pre'.length) :
    (getZipCode u cache (.object a) clock
        (.ok { status := status, statusText := statusText, text := .ok body })).result =
      if isValidIsraeliZipcode zip = true then .zipcode zip else .error msgMalformedZip := by
  have hcap : isCaptchaProtected u body = false := by
    cases h : isCaptchaProtected u body with
    | false => rfl
    | true =>
      obtain ⟨m, hm, hin⟩ := (isCaptchaProtected_iff u body).1 h
      exact absurd hin (hbot m hm)
  have hsearch : regexSearch matchRES8 body = some zip := by
    rw [hbody, List.append_assoc, List.append_assoc]
    apply regexSearch_first
    · apply (matchRES8_eq_some _ _).2
      exact ⟨post, by simp, hlen, fun c hc => (isDigitChar_iff c).2 (hdig c hc)⟩
    · intro p q hpq hlt
      cases hq : matchRES8 q with
      | none => rfl
      | some z' =>
        obtain ⟨rest, rfl, hl, hd⟩ := (matchRES8_eq_some _ _).1 hq
        have := hfirst p z' rest (by rw [hbody]; simpa using hpq) hl
          fun c hc => (isDigitChar_iff c).1 (hd c hc)
        omega
  rw [getZipCode_of_miss u cache a clock _ hmiss, handleFetch_of_body _ _ _ _ _ _ _ hstatus]
  simp only [handleBody, hcap, hsearch, Bool.false_eq_true, if_false]
  by_cases hv : isValidIsraeliZipcode zip = true
  · simp [hv]
  · simp [hv]

/-- Witness for C2: the body "RES80000001" yields the MalformedZip error, not a zipcode. -/
theorem getZipCode_strict_match_witness :
    (getZipCode plainLower [] (.object sampleAddress) ⟨0, 0, 0⟩
        (.ok { status := 200, statusText := "OK".toList, text := .ok "RES80000001".toList })).result =
      .error msgMalformedZip :=
  getZipCode_strict_match plainLower [] sampleAddress ⟨0, 0, 0⟩ 200 "OK".toList
    "RES80000001".toList [] "0000001".toList [] (by decide) (by decide) (by decide) (by decide)
    (by decide) (by decide) (fun _ _ _ _ _ _ => Nat.zero_le _)

/-- C3. A body received with a successful status that contains one of the markers of
`isCaptchaProtected`, compared without regard to letter case, ends the call with the
BotProtection error whatever else the body holds, and the cache is left as it was. -/
theorem getZipCode_bot_protection_first (u : List Char → Char → List Char → List Char)
    (cache : Cache) (a : Address) (clock : Clock) (status : Nat)
    (statusText body : List Char)
    (hmiss : cacheLookup cache (cacheKeyOf a) clock.atCheck = none)
    (hstatus : 200 ≤ status ∧ status ≤ 299)
    (hmark : ∃ m ∈ captchaIndicators,
      m <:+: toLowerCase u body ∨ ∃ w, w <:+: body ∧ w.map asciiLower = m) :
    (getZipCode u cache (.object a) clock
        (.ok { status := status, statusText := statusText, text := .ok body })).result =
      .error msgBotProtection ∧
    (getZipCode u cache (.object a) clock
        (.ok { status := status, statusText := statusText, text := .ok body })).cache = cache := by
  have hcap : isCaptchaProtected u body = true := by
    apply (isCaptchaProtected_iff u body).2
    obtain ⟨m, hm, h | ⟨w, hw, hwm⟩⟩ := hmark
    · exact ⟨m, hm, h⟩
    · exact ⟨m, hm, toLowerCase_infix_of_ascii u body w m hm hw hwm⟩
  rw [getZipCode_of_miss u cache a clock _ hmiss, handleFetch_of_body _ _ _ _ _ _ _ hstatus]
  simp [handleBody, hcap]

/-- Witness for C3: a captcha page that also carries a well-formed "RES8" and a valid
zipcode. -/
theorem getZipCode_bot_protection_first_witness :
    (getZipCode plainLower [] (.object sampleAddress) ⟨0, 0, 0⟩
        (.ok { status := 200, statusText := "OK".toList,
               text := .ok "Captcha Page detected RES81234567".toList })).result =
      .error msgBotProtection ∧
    (getZipCode plainLower [] (.object sampleAddress) ⟨0, 0, 0⟩
        (.ok { status := 200, statusText := "OK".toList,
               text := .ok "Captcha Page detected RES81234567".toList })).cache = [] :=
  getZipCode_bot_protection_first plainLower [] sampleAddress ⟨0, 0, 0⟩ 200 "OK".toList
    "Captcha Page detected RES81234567".toList (by decide) (by decide)
    ⟨"captcha page".toList, by decide,
      Or.inr ⟨"Captcha Page".toList, ⟨[], " detected RES81234567".toList, by decide⟩, by decide⟩⟩

/-- C4. `getZipCode` answers from the cache, that is without a network request, exactly
when the cache holds an entry for the key of the address whose age at the check is below
`CACHE_TTL`, and what it then returns is the zipcode of that entry; an entry of age
`CACHE_TTL` or more is not served although it is still in the map. -/
theorem getZipCode_from_cache_iff (u : List Char → Char → List Char → List Char)
    (cache : Cache) (a : Address) (clock : Clock) (net : Except FetchError Response)
    (z : List Char) :
    ((getZipCode u cache (.object a) clock net).requests = [] ↔
      ∃ e, mapGet cache (cacheKeyOf a) = some e ∧ clock.atCheck - e.timestamp < CACHE_TTL) ∧
    ((getZipCode u cache (.object a) clock net).requests = [] ∧
        (getZipCode u cache (.object a) clock net).result = .zipcode z ↔
      ∃ e, mapGet cache (cacheKeyOf a) = some e ∧ clock.atCheck - e.timestamp < CACHE_TTL ∧
        e.zipcode = z) ∧
    CACHE_TTL = 300000 := by
  refine ⟨?_, ?_, by decide⟩
  · cases hl : cacheLookup cache (cacheKeyOf a) clock.atCheck with
    | none =>
      rw [getZipCode_of_miss u cache a clock net hl]
      simp only [List.cons_ne_nil, false_iff, not_exists, not_and]
      intro e he hf
      have := (cacheLookup_eq_some cache (cacheKeyOf a) clock.atCheck e.zipcode).2 ⟨e, he, hf, rfl⟩
      rw [hl] at this
      cases this
    | some z0 =>
      rw [getZipCode_of_hit u cache a clock net z0 hl]
      obtain ⟨e, he, hf, -⟩ := (cacheLookup_eq_some _ _ _ _).1 hl
      simp only [true_iff]
      exact ⟨e, he, hf⟩
  · rw [← cacheLookup_eq_some]
    cases hl : cacheLookup cache (cacheKeyOf a) clock.atCheck with
    | none =>
      rw [getZipCode_of_miss u cache a clock net hl]
      simp
    | some z0 =>
      rw [getZipCode_of_hit u cache a clock net z0 hl]
      simp

/-! ## Facts about the cache operations -/

theorem mapGet_mapSet_self (cache : Cache) (key : List Char) (v : CacheEntry) :
    mapGet (mapSet cache key v) key = some v := by
  induction cache with
  | nil => simp [mapSet, mapGet]
  | cons kv rest ih =>
    obtain ⟨k, w⟩ := kv
    by_cases h : k = key
    · simp [mapSet, mapGet, h]
    · simp [mapSet, mapGet, h, ih]

theorem mapGet_mapSet_ne (cache : Cache) (key k : List Char) (v : CacheEntry) (hne : k ≠ key) :
    mapGet (mapSet cache key v) k = mapGet cache k := by
  induction cache with
  | nil => simp [mapSet, mapGet, Ne.symm hne]
  | cons kv rest ih =>
    obtain ⟨k0, w⟩ := kv
    by_cases h : k0 = key
    · subst h
      simp [mapSet, mapGet, Ne.symm hne]
    · by_cases h2 : k0 = k
      · subst h2
        simp [mapSet, mapGet, h]
      · simp [mapSet, mapGet, h, h2, ih]

theorem mapSet_keys (cache : Cache) (key : List Char) (v : CacheEntry) :
    (mapSet cache key v).map Prod.fst =
      if key ∈ cache.map Prod.fst then cache.map Prod.fst else cache.map Prod.fst ++ [key] := by
  induction cache with
  | nil => simp [mapSet]
  | cons kv rest ih =>
    obtain ⟨k0, w⟩ := kv
    by_cases h : k0 = key
    · subst h
      simp only [mapSet, if_true, List.map_cons, List.mem_cons, true_or]
    · have h2 : ¬ key = k0 := fun e => h e.symm
      simp only [mapSet, h, if_false, List.map_cons, ih, List.mem_cons, h2, false_or]
      split <;> simp

theorem mapSet_WF (cache : Cache) (key : List Char) (v : CacheEntry) (hwf : cache.WF) :
    (mapSet cache key v).WF := by
  unfold Cache.WF at *
  rw [mapSet_keys]
  split
  · exact hwf
  · next h =>
    rw [List.nodup_append]
    refine ⟨hwf, List.nodup_singleton _, ?_⟩
    intro x hx hx2
    simp only [List.mem_singleton] at hx2
    subst hx2
    exact h hx

theorem mem_of_mapGet (cache : Cache) (key : List Char) (e : CacheEntry)
    (h : mapGet cache key = some e) : (key, e) ∈ cache := by
  induction cache with
  | nil => simp [mapGet] at h
  | cons kv rest ih =>
    obtain ⟨k0, w⟩ := kv
    by_cases hk : k0 = key
    · simp only [mapGet, hk, if_true, Option.some.injEq] at h
      simp [hk, h]
    · simp only [mapGet, hk, if_false] at h
      exact List.mem_cons_of_mem _ (ih h)

theorem mapGet_filter (cache : Cache) (p : List Char × CacheEntry → Bool) (key : List Char)
    (e : CacheEntry) (h : mapGet cache key = some e) (hp : p (key, e) = true) :
    mapGet (cache.filter p) key = some e := by
  induction cache with
  | nil => simp [mapGet] at h
  | cons kv rest ih =>
    obtain ⟨k0, w⟩ := kv
    by_cases hk : k0 = key
    · subst hk
      simp only [mapGet, if_true, Option.some.injEq] at h
      subst h
      simp [List.filter, hp, mapGet]
    · simp only [mapGet, hk, if_false] at h
      by_cases hq : p (k0, w) = true
      · simp [List.filter, hq, mapGet, hk, ih h]
      · simp [List.filter, hq, ih h]

/-- The clean-up loop removes the keys that have an entry older than `CACHE_TTL` among
those still to visit. -/
theorem sweepLoop_eq_filter (now : Int) (todo : List (List Char × CacheEntry)) (cache : Cache) :
    sweepLoop now todo cache =
      cache.filter fun kv =>
        !(todo.any fun t => decide (now - t.2.timestamp > CACHE_TTL) && decide (t.1 = kv.1)) := by
  induction todo generalizing cache with
  | nil => simp [sweepLoop]
  | cons t todo ih =>
    obtain ⟨key, value⟩ := t
    by_cases hexp : now - value.timestamp > CACHE_TTL
    · simp only [sweepLoop, hexp, if_true, ih, mapDelete, List.filter_filter, List.any_cons,
        decide_True, Bool.true_and]
      apply List.filter_congr
      intro kv _
      by_cases hk : kv.1 = key
      · simp [hk]
      · have hk2 : ¬ key = kv.1 := fun e => hk e.symm
        simp [hk, hk2]
    · simp only [sweepLoop, hexp, if_false, ih, List.any_cons, decide_False, Bool.false_and,
        Bool.false_or]

/-- On a map, the clean-up loop removes exactly the entries older than `CACHE_TTL`. -/
theorem sweepLoop_self (now : Int) (cache : Cache) (hwf : cache.WF) :
    sweepLoop now cache cache =
      cache.filter fun kv => !decide (now - kv.2.timestamp > CACHE_TTL) := by
  rw [sweepLoop_eq_filter]
  apply List.filter_congr
  intro kv hkv
  congr 1
  rw [Bool.eq_iff_iff]
  simp only [List.any_eq_true, Bool.and_eq_true, decide_eq_true_eq]
  constructor
  · rintro ⟨t, ht, hexp, hk⟩
    have : t = kv := by
      have hinj := List.inj_on_of_nodup_map hwf ht hkv hk
      exact hinj
    rw [← this]; exact hexp
  · intro hexp
    exact ⟨kv, hkv, hexp, rfl⟩

theorem sweepLoop_no_old (now : Int) (cache : Cache) :
    ∀ kv ∈ sweepLoop now cache cache, ¬ now - kv.2.timestamp > CACHE_TTL := by
  intro kv hkv hexp
  rw [sweepLoop_eq_filter, List.mem_filter] at hkv
  obtain ⟨hmem, hno⟩ := hkv
  simp only [Bool.not_eq_true', List.any_eq_false, Bool.and_eq_true, decide_eq_true_eq,
    not_and] at hno
  exact hno kv hmem hexp rfl

/-! ## `getZipCode`: what a call does to the cache -/

theorem handleBody_cases (u : List Char → Char → List Char → List Char) (cache : Cache)
    (key : List Char) (clock : Clock) (body : List Char) :
    (∃ m, handleBody u cache key clock body = (.error m, cache)) ∨
    (∃ z, isValidIsraeliZipcode z = true ∧
      handleBody u cache key clock body = (.zipcode z, cachePut cache key z clock)) := by
  unfold handleBody
  split
  · exact Or.inl ⟨_, rfl⟩
  · split
    · next zipcode _ =>
      by_cases hv : isValidIsraeliZipcode zipcode = true
      · exact Or.inr ⟨zipcode, hv, by simp [hv]⟩
      · exact Or.inl ⟨msgMalformedZip, by simp [hv]⟩
    · split
      · split
        · exact Or.inl ⟨_, rfl⟩
        · split
          · exact Or.inl ⟨_, rfl⟩
          · exact Or.inl ⟨_, rfl⟩
      · exact Or.inl ⟨_, rfl⟩

theorem handleFetch_cases (u : List Char → Char → List Char → List Char) (cache : Cache)
    (key : List Char) (clock : Clock) (net : Except FetchError Response) :
    (∃ m, handleFetch u cache key clock net = (.error m, cache)) ∨
    (∃ z, isValidIsraeliZipcode z = true ∧
      handleFetch u cache key clock net = (.zipcode z, cachePut cache key z clock)) := by
  unfold handleFetch
  split
  · exact Or.inl ⟨_, rfl⟩
  · split
    · exact Or.inl ⟨_, rfl⟩
    · split
      · exact Or.inl ⟨_, rfl⟩
      · exact handleBody_cases u cache key clock _

/-- The three ways a call on an object ends: a cache hit, an error after a request, a
zipcode after a request. -/
theorem getZipCode_cases (u : List Char → Char → List Char → List Char) (cache : Cache)
    (a : Address) (clock : Clock) (net : Except FetchError Response) :
    (∃ z, cacheLookup cache (cacheKeyOf a) clock.atCheck = some z ∧
      getZipCode u cache (.object a) clock net =
        { result := .zipcode z, cache := cache, requests := [] }) ∨
    (∃ m, cacheLookup cache (cacheKeyOf a) clock.atCheck = none ∧
      getZipCode u cache (.object a) clock net =
        { result := .error m, cache := cache, requests := [requestUri a] }) ∨
    (∃ z, cacheLookup cache (cacheKeyOf a) clock.atCheck = none ∧
      isValidIsraeliZipcode z = true ∧
      getZipCode u cache (.object a) clock net =
        { result := .zipcode z, cache := cachePut cache (cacheKeyOf a) z clock,
          requests := [requestUri a] }) := by
  cases hl : cacheLookup cache (cacheKeyOf a) clock.atCheck with
  | some z => exact Or.inl ⟨z, rfl, getZipCode_of_hit u cache a clock net z hl⟩
  | none =>
    rw [getZipCode_of_miss u cache a clock net hl]
    rcases handleFetch_cases u cache (cacheKeyOf a) clock net with ⟨m, hm⟩ | ⟨z, hv, hz⟩
    · exact Or.inr (Or.inl ⟨m, rfl, by rw [hm]⟩)
    · exact Or.inr (Or.inr ⟨z, rfl, hv, by rw [hz]⟩)

theorem cachePut_get_self (cache : Cache) (key z : List Char) (clock : Clock)
    (hwf : cache.WF) (hsweep : clock.atSweep - clock.atSet ≤ CACHE_TTL) :
    mapGet (cachePut cache key z clock) key = some { zipcode := z, timestamp := clock.atSet } := by
  unfold cachePut
  simp only
  split
  · rw [sweepLoop_self _ _ (mapSet_WF cache key _ hwf)]
    apply mapGet_filter _ _ _ _ (mapGet_mapSet_self cache key _)
    simp only [Bool.not_eq_true', decide_eq_false_iff_not]
    omega
  · exact mapGet_mapSet_self cache key _

theorem cachePut_get_other (cache : Cache) (key z k : List Char) (clock : Clock)
    (e : CacheEntry) (hwf : cache.WF) (hne : k ≠ key) (hget : mapGet cache k = some e)
    (hfresh : clock.atSweep - e.timestamp ≤ CACHE_TTL) :
    mapGet (cachePut cache key z clock) k = some e := by
  have h1 : mapGet (mapSet cache key { zipcode := z, timestamp := clock.atSet }) k = some e := by
    rw [mapGet_mapSet_ne cache key k _ hne, hget]
  unfold cachePut
  simp only
  split
  · rw [sweepLoop_self _ _ (mapSet_WF cache key _ hwf)]
    apply mapGet_filter _ _ _ _ h1
    simp only [Bool.not_eq_true', decide_eq_false_iff_not]
    omega
  · exact h1

theorem cachePut_no_old (cache : Cache) (key z : List Char) (clock : Clock)
    (hlen : (cachePut cache key z clock).length > 100) :
    ∀ kv ∈ cachePut cache key z clock, ¬ clock.atSweep - kv.2.timestamp > CACHE_TTL := by
  unfold cachePut at hlen ⊢
  simp only at hlen ⊢
  split
  · exact sweepLoop_no_old _ _
  · next h =>
    rw [if_neg h] at hlen
    exact absurd hlen h

/-- Counterexample to C5 as stated.  The transport fails the first call with status 500:
nothing is cached, so the second call for the same address one millisecond later issues
a request of its own, two requests in all, and returns a zipcode the first call did not
return. -/
theorem getZipCode_twice_two_requests :
    ((getZipCode plainLower [] (.object sampleAddress) ⟨0, 0, 0⟩
        (.ok { status := 500, statusText := "Server Error".toList,
               text := .ok "RES81234567".toList })).requests ++
      (getZipCode plainLower
        (getZipCode plainLower [] (.object sampleAddress) ⟨0, 0, 0⟩
          (.ok { status := 500, statusText := "Server Error".toList,
                 text := .ok "RES81234567".toList })).cache
        (.object sampleAddress) ⟨1, 1, 1⟩ (okResponse "RES81234567".toList)).requests).length = 2 ∧
    (getZipCode plainLower [] (.object sampleAddress) ⟨0, 0, 0⟩
        (.ok { status := 500, statusText := "Server Error".toList,
               text := .ok "RES81234567".toList })).result =
      .error "HTTP error: 500 Server Error".toList ∧
    (getZipCode plainLower
        (getZipCode plainLower [] (.object sampleAddress) ⟨0, 0, 0⟩
          (.ok { status := 500, statusText := "Server Error".toList,
                 text := .ok "RES81234567".toList })).cache
        (.object sampleAddress) ⟨1, 1, 1⟩ (okResponse "RES81234567".toList)).result =
      .zipcode "1234567".toList := by
  decide

/-- C5, amended.  When the first call returns a zipcode and the second call for the same
four fields checks the cache less than `CACHE_TTL` after the timestamp of the entry stored
under the key of the address, the second call issues no request, returns the same
zipcode and leaves the cache as it is, so that both calls together issue at most one
request.  (The cache is a map, and the clean-up of the first call reads the clock at
most `CACHE_TTL` after its write.) -/
theorem getZipCode_twice_within_TTL (u : List Char → Char → List Char → List Char)
    (cache : Cache) (a : Address) (clock1 clock2 : Clock)
    (net1 net2 : Except FetchError Response) (z : List Char)
    (hwf : cache.WF)
    (hfirst : (getZipCode u cache (.object a) clock1 net1).result = .zipcode z)
    (hsweep : clock1.atSweep - clock1.atSet ≤ CACHE_TTL)
    (hwindow : ∀ e, mapGet (getZipCode u cache (.object a) clock1 net1).cache (cacheKeyOf a) =
      some e → clock2.atCheck - e.timestamp < CACHE_TTL) :
    (getZipCode u (getZipCode u cache (.object a) clock1 net1).cache
        (.object a) clock2 net2).result = .zipcode z ∧
    (getZipCode u (getZipCode u cache (.object a) clock1 net1).cache
        (.object a) clock2 net2).requests = [] ∧
    (getZipCode u (getZipCode u cache (.object a) clock1 net1).cache
        (.object a) clock2 net2).cache = (getZipCode u cache (.object a) clock1 net1).cache ∧
    ((getZipCode u cache (.object a) clock1 net1).requests ++
      (getZipCode u (getZipCode u cache (.object a) clock1 net1).cache
        (.object a) clock2 net2).requests).length ≤ 1 := by
  have hentry : ∃ e, mapGet (getZipCode u cache (.object a) clock1 net1).cache (cacheKeyOf a) =
      some e ∧ e.zipcode = z ∧ (getZipCode u cache (.object a) clock1 net1).requests.length ≤ 1 := by
    rcases getZipCode_cases u cache a clock1 net1 with ⟨z0, hl, h⟩ | ⟨m, _, h⟩ | ⟨z0, _, _, h⟩
    · rw [h] at hfirst ⊢
      simp only [CallbackArgs.zipcode.injEq] at hfirst
      subst hfirst
      obtain ⟨e, he, -, hz⟩ := (cacheLookup_eq_some _ _ _ _).1 hl
      exact ⟨e, he, hz, by simp⟩
    · rw [h] at hfirst
      cases hfirst
    · rw [h] at hfirst ⊢
      simp only [CallbackArgs.zipcode.injEq] at hfirst
      subst hfirst
      exact ⟨_, cachePut_get_self cache (cacheKeyOf a) z0 clock1 hwf hsweep, rfl, by simp⟩
  obtain ⟨e, he, hz, hlen⟩ := hentry
  have hhit : cacheLookup (getZipCode u cache (.object a) clock1 net1).cache (cacheKeyOf a)
      clock2.atCheck = some z :=
    (cacheLookup_eq_some _ _ _ _).2 ⟨e, he, hwindow e he, hz⟩
  rw [getZipCode_of_hit u _ a clock2 net2 z hhit]
  refine ⟨rfl, rfl, rfl, ?_⟩
  simpa using hlen

/-- Witness for C5, amended: a lookup answered by the network, repeated four minutes
later while the transport is down. -/
theorem getZipCode_twice_within_TTL_witness :
    (getZipCode plainLower
        (getZipCode plainLower [] (.object sampleAddress) ⟨0, 10, 10⟩
          (okResponse "RES81234567".toList)).cache
        (.object sampleAddress) ⟨240000, 240000, 240000⟩
        (.error { name := "AbortError".toList, code := none, message := [] })).result =
      .zipcode "1234567".toList ∧
    (getZipCode plainLower
        (getZipCode plainLower [] (.object sampleAddress) ⟨0, 10, 10⟩
          (okResponse "RES81234567".toList)).cache
        (.object sampleAddress) ⟨240000, 240000, 240000⟩
        (.error { name := "AbortError".toList, code := none, message := [] })).requests = [] ∧
    (getZipCode plainLower
        (getZipCode plainLower [] (.object sampleAddress) ⟨0, 10, 10⟩
          (okResponse "RES81234567".toList)).cache
        (.object sampleAddress) ⟨240000, 240000, 240000⟩
        (.error { name := "AbortError".toList, code := none, message := [] })).cache =
      (getZipCode plainLower [] (.object sampleAddress) ⟨0, 10, 10⟩
        (okResponse "RES81234567".toList)).cache ∧
    ((getZipCode plainLower [] (.object sampleAddress) ⟨0, 10, 10⟩
        (okResponse "RES81234567".toList)).requests ++
      (getZipCode plainLower
        (getZipCode plainLower [] (.object sampleAddress) ⟨0, 10, 10⟩
          (okResponse "RES81234567".toList)).cache
        (.object sampleAddress) ⟨240000, 240000, 240000⟩
        (.error { name := "AbortError".toList, code := none, message := [] })).requests).length
      ≤ 1 :=
  getZipCode_twice_within_TTL plainLower [] sampleAddress ⟨0, 10, 10⟩
    ⟨240000, 240000, 240000⟩ (okResponse "RES81234567".toList)
    (.error { name := "AbortError".toList, code := none, message := [] }) "1234567".toList
    (by decide) (by decide) (by decide)
    (by
      intro e he
      have h : (getZipCode plainLower [] (.object sampleAddress) ⟨0, 10, 10⟩
          (okResponse "RES81234567".toList)).cache =
          [(cacheKeyOf sampleAddress, { zipcode := "1234567".toList, timestamp := 10 })] := by
        decide
      rw [h] at he
      simp only [mapGet, if_true, Option.some.injEq] at he
      subst he
      decide)

/-- C6. A call that does not end in a successful network lookup, that is a call that
ends in an error (invalid input, transport failure, a status outside the success range,
or any classified error) or that issues no request (a cache hit), leaves the cache
identical to the cache before the call. -/
theorem getZipCode_cache_frame (u : List Char → Char → List Char → List Char)
    (cache : Cache) (address : Input) (clock : Clock) (net : Except FetchError Response)
    (h : (∃ m, (getZipCode u cache address clock net).result = .error m) ∨
      (getZipCode u cache address clock net).requests = []) :
    (getZipCode u cache address clock net).cache = cache := by
  cases address with
  | object a =>
    rcases getZipCode_cases u cache a clock net with ⟨z0, _, h0⟩ | ⟨m, _, h0⟩ | ⟨z0, _, _, h0⟩
    · rw [h0]
    · rw [h0]
    · rw [h0] at h
      rcases h with ⟨m, hm⟩ | hreq
      · cases hm
      · cases hreq
  | _ => rfl

/-- Witness for C6: a response with status 503 on a cache of three entries. -/
theorem getZipCode_cache_frame_witness :
    (getZipCode plainLower (sampleCache 3 fun _ => 0) (.object sampleAddress) ⟨5, 5, 5⟩
        (.ok { status := 503, statusText := "Unavailable".toList,
               text := .ok "RES81234567".toList })).cache = sampleCache 3 fun _ => 0 :=
  getZipCode_cache_frame plainLower (sampleCache 3 fun _ => 0) (.object sampleAddress)
    ⟨5, 5, 5⟩ _ (Or.inl ⟨"HTTP error: 503 Unavailable".toList, by decide⟩)

/-! ## The sample cache is a map -/

set_option maxRecDepth 100000 in
theorem sampleKeyIndex_key : ∀ i < 101, sampleKeyIndex (cacheKeyOf (sampleAddressAt i)) = i := by
  decide

theorem sampleCache_WF (n : Nat) (timestamp : Nat → Int) (hn : n ≤ 101) :
    (sampleCache n timestamp).WF := by
  unfold Cache.WF sampleCache
  rw [List.map_map]
  apply List.Nodup.map_on _ (List.nodup_range n)
  intro i hi j hj hij
  simp only [Function.comp] at hij
  have hi2 := sampleKeyIndex_key i (by have := List.mem_range.1 hi; omega)
  have hj2 := sampleKeyIndex_key j (by have := List.mem_range.1 hj; omega)
  rw [← hi2, ← hj2, hij]

/-! ## The claims on the cache write -/

/-- C7. After a successful network lookup on a map, every entry stored under another key
whose age at the clean-up is below `CACHE_TTL` is still there, unchanged, and the entry
just written is there too, whatever the size of the cache afterwards.  (The write and
the clean-up of one lookup read the clock at most `CACHE_TTL` apart; in the claim they
read the same time.) -/
theorem getZipCode_sweep_keeps_valid (u : List Char → Char → List Char → List Char)
    (cache : Cache) (a : Address) (clock : Clock) (net : Except FetchError Response)
    (z : List Char)
    (hwf : cache.WF)
    (hzip : (getZipCode u cache (.object a) clock net).result = .zipcode z)
    (hreq : (getZipCode u cache (.object a) clock net).requests ≠ [])
    (hclock : clock.atSweep - clock.atSet ≤ CACHE_TTL) :
    (∀ k e, k ≠ cacheKeyOf a → mapGet cache k = some e →
      clock.atSweep - e.timestamp < CACHE_TTL →
        mapGet (getZipCode u cache (.object a) clock net).cache k = some e) ∧
    mapGet (getZipCode u cache (.object a) clock net).cache (cacheKeyOf a) =
      some { zipcode := z, timestamp := clock.atSet } := by
  rcases getZipCode_cases u cache a clock net with ⟨z0, _, h0⟩ | ⟨m, _, h0⟩ | ⟨z0, _, _, h0⟩
  · rw [h0] at hreq
    exact absurd rfl hreq
  · rw [h0] at hzip
    cases hzip
  · rw [h0] at hzip ⊢
    simp only [CallbackArgs.zipcode.injEq] at hzip
    subst hzip
    refine ⟨?_, cachePut_get_self cache _ z0 clock hwf hclock⟩
    intro k e hne hget hfresh
    exact cachePut_get_other cache _ z0 k clock e hwf hne hget (le_of_lt hfresh)

set_option maxRecDepth 100000 in
/-- Witness for C7: a cache of 101 entries, the first of them expired; after the lookup
the cache still holds 101 entries, among them the valid entry of house number 5 and the
entry just written. -/
theorem getZipCode_sweep_keeps_valid_witness :
    mapGet (getZipCode plainLower (sampleCache 101 fun i => if i = 0 then 0 else 399000)
        (.object sampleAddress) ⟨400000, 400000, 400000⟩
        (okResponse "RES81234567".toList)).cache (cacheKeyOf (sampleAddressAt 5)) =
      some { zipcode := "1234567".toList, timestamp := 399000 } ∧
    mapGet (getZipCode plainLower (sampleCache 101 fun i => if i = 0 then 0 else 399000)
        (.object sampleAddress) ⟨400000, 400000, 400000⟩
        (okResponse "RES81234567".toList)).cache (cacheKeyOf sampleAddress) =
      some { zipcode := "1234567".toList, timestamp := 400000 } ∧
    (getZipCode plainLower (sampleCache 101 fun i => if i = 0 then 0 else 399000)
        (.object sampleAddress) ⟨400000, 400000, 400000⟩
        (okResponse "RES81234567".toList)).cache.length = 101 :=
  (fun h => ⟨h.1 (cacheKeyOf (sampleAddressAt 5))
      { zipcode := "1234567".toList, timestamp := 399000 } (by decide) (by decide) (by decide),
    h.2, by decide⟩)
    (getZipCode_sweep_keeps_valid plainLower
      (sampleCache 101 fun i => if i = 0 then 0 else 399000) sampleAddress
      ⟨400000, 400000, 400000⟩ (okResponse "RES81234567".toList) "1234567".toList
      (sampleCache_WF _ _ (by decide)) (by decide) (by decide) (by decide))

/-- C8. Right after the write of a successful network lookup, a cache of more than 100
entries holds no entry older than `CACHE_TTL`, that is no entry with
`now - timestamp > 300000` for the time `now` read by the clean-up. -/
theorem getZipCode_put_bound (u : List Char → Char → List Char → List Char)
    (cache : Cache) (a : Address) (clock : Clock) (net : Except FetchError Response)
    (z : List Char)
    (hzip : (getZipCode u cache (.object a) clock net).result = .zipcode z)
    (hreq : (getZipCode u cache (.object a) clock net).requests ≠ [])
    (hsize : (getZipCode u cache (.object a) clock net).cache.length > 100) :
    ∀ kv ∈ (getZipCode u cache (.object a) clock net).cache,
      ¬ clock.atSweep - kv.2.timestamp > 300000 := by
  rcases getZipCode_cases u cache a clock net with ⟨z0, _, h0⟩ | ⟨m, _, h0⟩ | ⟨z0, _, _, h0⟩
  · rw [h0] at hreq
    exact absurd rfl hreq
  · rw [h0] at hzip
    cases hzip
  · rw [h0] at hsize ⊢
    exact cachePut_no_old cache _ z0 clock hsize

set_option maxRecDepth 100000 in
/-- Witness for C8: the cache of 101 entries with one expired entry; 101 entries remain
after the lookup, and the entry of house number 5 among them is not older than
`CACHE_TTL`. -/
theorem getZipCode_put_bound_witness :
    (getZipCode plainLower (sampleCache 101 fun i => if i = 0 then 0 else 399000)
        (.object sampleAddress) ⟨400000, 400000, 400000⟩
        (okResponse "RES81234567".toList)).cache.length = 101 ∧
    ¬ (400000 : Int) -
        (cacheKeyOf (sampleAddressAt 5),
          ({ zipcode := "1234567".toList, timestamp := 399000 } : CacheEntry)).2.timestamp >
      300000 :=
  ⟨by decide,
    getZipCode_put_bound plainLower (sampleCache 101 fun i => if i = 0 then 0 else 399000)
      sampleAddress ⟨400000, 400000, 400000⟩ (okResponse "RES81234567".toList)
      "1234567".toList (by decide) (by decide) (by decide)
      (cacheKeyOf (sampleAddressAt 5), { zipcode := "1234567".toList, timestamp := 399000 })
      (by decide)⟩

set_option maxRecDepth 100000 in
/-- C9, the code at the failing input.  A cache of 100 entries, house number 0 stored at
700000 and house number 1 at 699999; a successful lookup at time 1000000 makes 101
entries and runs the clean-up.  The entry of age 300001 is removed, the entry of age
exactly 300000 stays in the map, although the cache check at that time refuses to serve
it. -/
theorem getZipCode_sweep_keeps_age_TTL :
    mapGet (getZipCode plainLower
        (sampleCache 100 fun i => if i = 0 then 700000 else if i = 1 then 699999 else 900000)
        (.object sampleAddress) ⟨1000000, 1000000, 1000000⟩
        (okResponse "RES81234567".toList)).cache (cacheKeyOf (sampleAddressAt 0)) =
      some { zipcode := "1234567".toList, timestamp := 700000 } ∧
    mapGet (getZipCode plainLower
        (sampleCache 100 fun i => if i = 0 then 700000 else if i = 1 then 699999 else 900000)
        (.object sampleAddress) ⟨1000000, 1000000, 1000000⟩
        (okResponse "RES81234567".toList)).cache (cacheKeyOf (sampleAddressAt 1)) = none ∧
    cacheLookup (getZipCode plainLower
        (sampleCache 100 fun i => if i = 0 then 700000 else if i = 1 then 699999 else 900000)
        (.object sampleAddress) ⟨1000000, 1000000, 1000000⟩
        (okResponse "RES81234567".toList)).cache (cacheKeyOf (sampleAddressAt 0)) 1000000 =
      none ∧
    (1000000 : Int) - 700000 = CACHE_TTL := by
  decide

/-! ## The response code after "RES" -/

theorem takeDigits_append (ds post : List Char) (hdig : ∀ c ∈ ds, isDigitChar c = true)
    (hmax : ∀ c, post.head? = some c → isDigitChar c = false) :
    takeDigits (ds ++ post) = ds := by
  induction ds with
  | nil =>
    cases post with
    | nil => rfl
    | cons c cs => simp [takeDigits, hmax c rfl]
  | cons d ds ih =>
    have hd : isDigitChar d = true := hdig d (List.mem_cons_self _ _)
    simp [takeDigits, hd, ih fun c hc => hdig c (List.mem_cons_of_mem _ hc)]

theorem matchRES_sound (s r : List Char) (h : matchRES s = some r) :
    ∃ rest, s = ['R', 'E', 'S'] ++ rest := by
  unfold matchRES at h
  split at h
  · next rest hl => exact ⟨rest, (matchLiteral_eq_some _ _ _).1 hl⟩
  · cases h

theorem matchRES_code (d : Char) (ds post : List Char)
    (hdig : ∀ c ∈ d :: ds, isDigitChar c = true)
    (hmax : ∀ c, post.head? = some c → isDigitChar c = false) :
    matchRES (['R', 'E', 'S'] ++ (d :: ds ++ post)) = some (d :: ds) := by
  have hl : matchLiteral ['R', 'E', 'S'] (['R', 'E', 'S'] ++ (d :: ds ++ post)) =
      some (d :: ds ++ post) := (matchLiteral_eq_some _ _ _).2 rfl
  have ht : takeDigits (d :: ds ++ post) = d :: ds := takeDigits_append (d :: ds) post hdig hmax
  simp only [matchRES, hl, matchDigitsPlus, ht]

/-- A check by positions that `lit` occurs in `body` only right after `pre`. -/
theorem only_occurrence_of_check (body lit pre : List Char)
    (hcheck : ∀ i < body.length + 1, lit.isPrefixOf (body.drop i) = true → body.take i = pre) :
    ∀ p q : List Char, body = p ++ lit ++ q → p = pre := by
  intro p q h
  have hlen : p.length < body.length + 1 := by rw [h]; simp; omega
  have hdrop : body.drop p.length = lit ++ q := by
    rw [h, List.append_assoc, List.drop_left]
  have htake : body.take p.length = p := by
    rw [h, List.append_assoc, List.take_left]
  rw [← htake]
  apply hcheck p.length hlen
  rw [hdrop, List.isPrefixOf_iff_prefix]
  exact List.prefix_append _ _

/-- Counterexample to C10 as stated.  The only RES token of the body is "RES8" followed
by a run of eight digits, a length other than 7, and the call ends with a zipcode, the
first seven digits of the run, not with the UnexpectedFormat error. -/
theorem getZipCode_long_run_success :
    (getZipCode plainLower [] (.object sampleAddress) ⟨0, 0, 0⟩
        (okResponse "RES812345678".toList)).result = .zipcode "1234567".toList ∧
    isCaptchaProtected plainLower "RES812345678".toList = false := by
  decide

/-- C10, amended.  A body received with a successful status, free of bot-protection
markers, whose only RES token is "RES8" followed by a maximal run of digits: when the run
is shorter than 7 the call ends with the UnexpectedFormat error and never with a
zipcode; when the run has 7 digits or more its first seven digits are the candidate
zipcode of the success pattern. -/
theorem getZipCode_RES8_run (u : List Char → Char → List Char → List Char)
    (cache : Cache) (a : Address) (clock : Clock) (status : Nat)
    (statusText body pre ds post : List Char)
    (hmiss : cacheLookup cache (cacheKeyOf a) clock.atCheck = none)
    (hstatus : 200 ≤ status ∧ status ≤ 299)
    (hbot : ∀ m ∈ captchaIndicators, ¬ m <:+: toLowerCase u body)
    (hbody : body = pre ++ ['R', 'E', 'S', '8'] ++ ds ++ post)
    (hdig : ∀ c ∈ ds, '0' ≤ c ∧ c ≤ '9')
    (hmax : ∀ c, post.head? = some c → ¬ ('0' ≤ c ∧ c ≤ '9'))
    (honly : ∀ p q : List Char, body = p ++ ['R', 'E', 'S'] ++ q → p = pre) :
    (getZipCode u cache (.object a) clock
        (.ok { status := status, statusText := statusText, text := .ok body })).result =
      if ds.length < 7 then .error msgUnexpectedFormat
      else if isValidIsraeliZipcode (ds.take 7) = true then .zipcode (ds.take 7)
      else .error msgMalformedZip := by
  have hcap : isCaptchaProtected u body = false := by
    cases h : isCaptchaProtected u body with
    | false => rfl
    | true =>
      obtain ⟨m, hm, hin⟩ := (isCaptchaProtected_iff u body).1 h
      exact absurd hin (hbot m hm)
  have hdig2 : ∀ c ∈ ds, isDigitChar c = true := fun c hc => (isDigitChar_iff c).2 (hdig c hc)
  have hmax2 : ∀ c, post.head? = some c → isDigitChar c = false := by
    intro c hc
    cases h : isDigitChar c with
    | false => rfl
    | true => exact absurd ((isDigitChar_iff c).1 h) (hmax c hc)
  have hsplit : body = pre ++ (['R', 'E', 'S', '8'] ++ ds ++ post) := by
    rw [hbody]; simp
  have huniq8 : ∀ p q z, body = p ++ q → matchRES8 q = some z →
      p = pre ∧ ∃ rest, ds ++ post = z ++ rest ∧ z.length = 7 ∧
        ∀ c ∈ z, isDigitChar c = true := by
    intro p q z hpq hq
    obtain ⟨rest, rfl, hl, hd⟩ := (matchRES8_eq_some _ _).1 hq
    have hp : p = pre := honly p ('8' :: (z ++ rest)) (by rw [hpq]; simp)
    subst hp
    refine ⟨rfl, rest, ?_, hl, hd⟩
    rw [hsplit] at hpq
    have := List.append_cancel_left hpq
    simpa using this
  have huniq : ∀ p q r, body = p ++ q → matchRES q = some r → p = pre := by
    intro p q r hpq hq
    obtain ⟨rest, rfl⟩ := matchRES_sound q r hq
    exact honly p rest (by rw [hpq]; simp)
  rw [getZipCode_of_miss u cache a clock _ hmiss, handleFetch_of_body _ _ _ _ _ _ _ hstatus]
  by_cases hshort : ds.length < 7
  · have hnone : regexSearch matchRES8 body = none := by
      rw [regexSearch_eq_none]
      intro p q hpq
      cases hq : matchRES8 q with
      | none => rfl
      | some z =>
        exfalso
        obtain ⟨-, rest, heq, hl, hd⟩ := huniq8 p q z hpq hq
        rcases List.append_eq_append_iff.1 heq with ⟨t, hz, -⟩ | ⟨t, hds, -⟩
        · cases t with
          | nil =>
            rw [List.append_nil] at hz
            rw [hz] at hl; omega
          | cons x t =>
            have hpost : post = x :: t ++ rest := by
              have := heq
              rw [hz, List.append_assoc] at this
              exact List.append_cancel_left this
            have hx : isDigitChar x = true := hd x (by rw [hz]; simp)
            have := hmax2 x (by rw [hpost]; rfl)
            rw [hx] at this
            cases this
        · have : ds.length = z.length + t.length := by rw [hds]; simp
          omega
    have hcode : regexSearch matchRES body = some ('8' :: ds) := by
      have h8 : isDigitChar '8' = true := by decide
      rw [hsplit]
      apply regexSearch_first
      · have := matchRES_code '8' ds post
          (fun c hc => by
            rcases List.mem_cons.1 hc with rfl | hc
            · exact h8
            · exact hdig2 c hc) hmax2
        simpa using this
      · intro p q hpq hlt
        cases hq : matchRES q with
        | none => rfl
        | some r =>
          have := huniq p q r (by rw [hsplit]; exact hpq) hq
          rw [this] at hlt
          exact absurd hlt (lt_irrefl _)
    simp [handleBody, hcap, hnone, hcode, hshort, startsWith, List.isPrefixOf]
  · have hlen : 7 ≤ ds.length := Nat.le_of_not_lt hshort
    have hsome : regexSearch matchRES8 body = some (ds.take 7) := by
      rw [hsplit]
      apply regexSearch_first
      · apply (matchRES8_eq_some _ _).2
        refine ⟨ds.drop 7 ++ post, ?_, by simp [hlen], fun c hc => hdig2 c (List.mem_of_mem_take hc)⟩
        conv_lhs => rw [← List.take_append_drop 7 ds]
        simp only [List.append_assoc]
      · intro p q hpq hlt
        cases hq : matchRES8 q with
        | none => rfl
        | some z =>
          obtain ⟨hp, -⟩ := huniq8 p q z (by rw [hsplit]; exact hpq) hq
          rw [hp] at hlt
          exact absurd hlt (lt_irrefl _)
    simp only [handleBody, hcap, hsome, hshort, Bool.false_eq_true, if_false]
    by_cases hv : isValidIsraeliZipcode (ds.take 7) = true
    · simp [hv]
    · simp [hv]

/-- Witness for C10, amended: "RES8" followed by three digits. -/
theorem getZipCode_RES8_run_witness :
    (getZipCode plainLower [] (.object sampleAddress) ⟨0, 0, 0⟩
        (.ok { status := 200, statusText := "OK".toList,
               text := .ok "xx RES8123 yy".toList })).result = .error msgUnexpectedFormat :=
  getZipCode_RES8_run plainLower [] sampleAddress ⟨0, 0, 0⟩ 200 "OK".toList
    "xx RES8123 yy".toList "xx ".toList "123".toList " yy".toList
    (by decide) (by decide) (by decide) (by decide) (by decide)
    (by
      intro c hc
      have : c = ' ' := by
        have h : " yy".toList.head? = some ' ' := by decide
        rw [h] at hc
        exact (Option.some.inj hc).symm
      subst this
      decide)
    (only_occurrence_of_check _ _ _ (by decide))

/-! ## The general pattern "RES" and digits -/

theorem matchRES_eq_some (s r : List Char) :
    matchRES s = some r ↔
      ∃ d rest, s = ['R', 'E', 'S'] ++ d :: rest ∧ isDigitChar d = true ∧
        r = d :: takeDigits rest := by
  unfold matchRES
  constructor
  · intro h
    split at h
    · next rest hl =>
      have hs := (matchLiteral_eq_some _ _ _).1 hl
      cases rest with
      | nil => simp [matchDigitsPlus, takeDigits] at h
      | cons d rest =>
        by_cases hd : isDigitChar d = true
        · simp only [matchDigitsPlus, takeDigits, hd, if_true, Option.some.injEq] at h
          exact ⟨d, rest, hs, hd, h.symm⟩
        · simp [matchDigitsPlus, takeDigits, hd] at h
    · cases h
  · rintro ⟨d, rest, rfl, hd, rfl⟩
    have hl : matchLiteral ['R', 'E', 'S'] (['R', 'E', 'S'] ++ d :: rest) = some (d :: rest) :=
      (matchLiteral_eq_some _ _ _).2 rfl
    simp only [hl, matchDigitsPlus, takeDigits, hd, if_true]

theorem regexSearch_matchRES8_none (body : List Char)
    (hstrict : ∀ p z q : List Char, body = p ++ ['R', 'E', 'S', '8'] ++ z ++ q →
      z.length = 7 → ¬ ∀ c ∈ z, '0' ≤ c ∧ c ≤ '9') :
    regexSearch matchRES8 body = none := by
  rw [regexSearch_eq_none]
  intro p q hpq
  cases hq : matchRES8 q with
  | none => rfl
  | some z =>
    exfalso
    obtain ⟨rest, rfl, hl, hd⟩ := (matchRES8_eq_some _ _).1 hq
    exact hstrict p z rest (by rw [hpq]; simp) hl fun c hc => (isDigitChar_iff c).1 (hd c hc)

theorem regexSearch_matchRES_first (body pre rest : List Char) (d : Char)
    (hbody : body = pre ++ ['R', 'E', 'S'] ++ d :: rest)
    (hd : '0' ≤ d ∧ d ≤ '9')
    (hfirst : ∀ (p : List Char) (c : Char) (q : List Char),
      body = p ++ ['R', 'E', 'S'] ++ c :: q → '0' ≤ c ∧ c ≤ '9' → pre.length ≤ p.length) :
    regexSearch matchRES body = some (d :: takeDigits rest) := by
  have hsplit : body = pre ++ (['R', 'E', 'S'] ++ d :: rest) := by rw [hbody]; simp
  rw [hsplit]
  apply regexSearch_first
  · exact (matchRES_eq_some _ _).2 ⟨d, rest, rfl, (isDigitChar_iff d).2 hd, rfl⟩
  · intro p q hpq hlt
    cases hq : matchRES q with
    | none => rfl
    | some r =>
      exfalso
      obtain ⟨c, q', rfl, hc, -⟩ := (matchRES_eq_some _ _).1 hq
      have := hfirst p c q' (by rw [hsplit, hpq]; simp) ((isDigitChar_iff c).1 hc)
      omega

theorem regexSearch_matchRES_none (body : List Char) :
    regexSearch matchRES body = none ↔
      ∀ (p : List Char) (c : Char) (q : List Char),
        body = p ++ ['R', 'E', 'S'] ++ c :: q → ¬ ('0' ≤ c ∧ c ≤ '9') := by
  rw [regexSearch_eq_none]
  constructor
  · intro h p c q hpq hc
    have := h p (['R', 'E', 'S'] ++ c :: q) (by rw [hpq]; simp)
    rw [(matchRES_eq_some _ _).2 ⟨c, q, rfl, (isDigitChar_iff c).2 hc, rfl⟩] at this
    cases this
  · intro h p q hpq
    cases hq : matchRES q with
    | none => rfl
    | some r =>
      exfalso
      obtain ⟨c, q', rfl, hc, -⟩ := (matchRES_eq_some _ _).1 hq
      exact h p c q' (by rw [hpq]; simp) ((isDigitChar_iff c).1 hc)

theorem isCaptchaProtected_eq_false (u : List Char → Char → List Char → List Char)
    (body : List Char) (hbot : ∀ m ∈ captchaIndicators, ¬ m <:+: toLowerCase u body) :
    isCaptchaProtected u body = false := by
  cases h : isCaptchaProtected u body with
  | false => rfl
  | true =>
    obtain ⟨m, hm, hin⟩ := (isCaptchaProtected_iff u body).1 h
    exact absurd hin (hbot m hm)

/-- A check by positions that `lit` does not occur in `body`. -/
theorem no_occurrence_of_check (body lit : List Char)
    (hcheck : ∀ i < body.length + 1, lit.isPrefixOf (body.drop i) = false) :
    ∀ p q : List Char, body ≠ p ++ lit ++ q := by
  intro p q h
  have hlen : p.length < body.length + 1 := by rw [h]; simp; omega
  have hdrop : body.drop p.length = lit ++ q := by
    rw [h, List.append_assoc, List.drop_left]
  have := hcheck p.length hlen
  rw [hdrop] at this
  have h2 : lit.isPrefixOf (lit ++ q) = true :=
    List.isPrefixOf_iff_prefix.2 (List.prefix_append _ _)
  rw [h2] at this
  cases this

/-- The branch of `getZipCode` for a response code found by the general pattern only. -/
theorem handleBody_of_code (u : List Char → Char → List Char → List Char) (cache : Cache)
    (key : List Char) (clock : Clock) (body resCode : List Char)
    (hcap : isCaptchaProtected u body = false)
    (hstrict : regexSearch matchRES8 body = none)
    (hcode : regexSearch matchRES body = some resCode) :
    handleBody u cache key clock body =
      (if (startsWith resCode ['0'] || startsWith resCode ['1'] || startsWith resCode ['2']) = true
        then (.error msgAddressNotFound, cache)
       else if (!startsWith resCode ['8']) = true then (.error (msgUpstreamError resCode), cache)
       else (.error msgUnexpectedFormat, cache)) := by
  simp only [handleBody, hcap, hstrict, hcode, Bool.false_eq_true, if_false]

/-- C11. A body received with a successful status, free of bot-protection markers and
without any "RES8" followed by seven digits, in which the first "RES" followed by a digit
has a code starting with 0, 1 or 2, ends the call with the AddressNotFound error. -/
theorem getZipCode_address_not_found (u : List Char → Char → List Char → List Char)
    (cache : Cache) (a : Address) (clock : Clock) (status : Nat)
    (statusText body pre rest : List Char) (d : Char)
    (hmiss : cacheLookup cache (cacheKeyOf a) clock.atCheck = none)
    (hstatus : 200 ≤ status ∧ status ≤ 299)
    (hbot : ∀ m ∈ captchaIndicators, ¬ m <:+: toLowerCase u body)
    (hstrict : ∀ p z q : List Char, body = p ++ ['R', 'E', 'S', '8'] ++ z ++ q →
      z.length = 7 → ¬ ∀ c ∈ z, '0' ≤ c ∧ c ≤ '9')
    (hbody : body = pre ++ ['R', 'E', 'S'] ++ d :: rest)
    (hd : d = '0' ∨ d = '1' ∨ d = '2')
    (hfirst : ∀ (p : List Char) (c : Char) (q : List Char),
      body = p ++ ['R', 'E', 'S'] ++ c :: q → '0' ≤ c ∧ c ≤ '9' → pre.length ≤ p.length) :
    (getZipCode u cache (.object a) clock
        (.ok { status := status, statusText := statusText, text := .ok body })).result =
      .error msgAddressNotFound ∧
    msgAddressNotFound = "Address not found in Israeli Post database".toList := by
  refine ⟨?_, rfl⟩
  have hdig : '0' ≤ d ∧ d ≤ '9' := by
    rcases hd with rfl | rfl | rfl <;> decide
  have hcode := regexSearch_matchRES_first body pre rest d hbody hdig hfirst
  rw [getZipCode_of_miss u cache a clock _ hmiss, handleFetch_of_body _ _ _ _ _ _ _ hstatus,
    handleBody_of_code u cache _ clock body _ (isCaptchaProtected_eq_false u body hbot)
      (regexSearch_matchRES8_none body hstrict) hcode]
  rcases hd with rfl | rfl | rfl <;> simp [startsWith, List.isPrefixOf]

/-- Witness for C11: the body "RES1234567". -/
theorem getZipCode_address_not_found_witness :
    (getZipCode plainLower [] (.object sampleAddress) ⟨0, 0, 0⟩
        (.ok { status := 200, statusText := "OK".toList,
               text := .ok "RES1234567".toList })).result = .error msgAddressNotFound ∧
    msgAddressNotFound = "Address not found in Israeli Post database".toList :=
  getZipCode_address_not_found plainLower [] sampleAddress ⟨0, 0, 0⟩ 200 "OK".toList
    "RES1234567".toList [] "234567".toList '1' (by decide) (by decide) (by decide)
    (fun p z q h _ _ =>
      no_occurrence_of_check "RES1234567".toList ['R', 'E', 'S', '8'] (by decide) p (z ++ q)
        (by rw [h]; simp))
    (by decide) (by decide) (fun _ _ _ _ _ => Nat.zero_le _)

/-- C16. A body received with a successful status, free of bot-protection markers and
without any "RES8" followed by seven digits, in which the first "RES" followed by a digit
has a code (the maximal run of digits after that "RES") whose first digit is none of 0,
1, 2 and 8, ends the call with the UpstreamError error whose message carries exactly
that code. -/
theorem getZipCode_upstream_error (u : List Char → Char → List Char → List Char)
    (cache : Cache) (a : Address) (clock : Clock) (status : Nat)
    (statusText body pre ds post : List Char) (d : Char)
    (hmiss : cacheLookup cache (cacheKeyOf a) clock.atCheck = none)
    (hstatus : 200 ≤ status ∧ status ≤ 299)
    (hbot : ∀ m ∈ captchaIndicators, ¬ m <:+: toLowerCase u body)
    (hstrict : ∀ p z q : List Char, body = p ++ ['R', 'E', 'S', '8'] ++ z ++ q →
      z.length = 7 → ¬ ∀ c ∈ z, '0' ≤ c ∧ c ≤ '9')
    (hbody : body = pre ++ ['R', 'E', 'S'] ++ (d :: ds) ++ post)
    (hdig : ∀ c ∈ d :: ds, '0' ≤ c ∧ c ≤ '9')
    (hmax : ∀ c, post.head? = some c → ¬ ('0' ≤ c ∧ c ≤ '9'))
    (hd : d ≠ '0' ∧ d ≠ '1' ∧ d ≠ '2' ∧ d ≠ '8')
    (hfirst : ∀ (p : List Char) (c : Char) (q : List Char),
      body = p ++ ['R', 'E', 'S'] ++ c :: q → '0' ≤ c ∧ c ≤ '9' → pre.length ≤ p.length) :
    (getZipCode u cache (.object a) clock
        (.ok { status := status, statusText := statusText, text := .ok body })).result =
      .error ("Israeli Post returned error code: ".toList ++ d :: ds) := by
  have hbody2 : body = pre ++ ['R', 'E', 'S'] ++ d :: (ds ++ post) := by rw [hbody]; simp
  have hmax2 : ∀ c, post.head? = some c → isDigitChar c = false := by
    intro c hc
    cases h : isDigitChar c with
    | false => rfl
    | true => exact absurd ((isDigitChar_iff c).1 h) (hmax c hc)
  have htake : takeDigits (ds ++ post) = ds :=
    takeDigits_append ds post
      (fun c hc => (isDigitChar_iff c).2 (hdig c (List.mem_cons_of_mem _ hc))) hmax2
  have hcode := regexSearch_matchRES_first body pre (ds ++ post) d hbody2
    (hdig d (List.mem_cons_self _ _)) hfirst
  rw [htake] at hcode
  rw [getZipCode_of_miss u cache a clock _ hmiss, handleFetch_of_body _ _ _ _ _ _ _ hstatus,
    handleBody_of_code u cache _ clock body _ (isCaptchaProtected_eq_false u body hbot)
      (regexSearch_matchRES8_none body hstrict) hcode]
  obtain ⟨h0, h1, h2, h8⟩ := hd
  have h0' : ¬ '0' = d := fun e => h0 e.symm
  have h1' : ¬ '1' = d := fun e => h1 e.symm
  have h2' : ¬ '2' = d := fun e => h2 e.symm
  have h8' : ¬ '8' = d := fun e => h8 e.symm
  simp only [startsWith, List.isPrefixOf, Bool.and_true, Bool.or_eq_true, beq_iff_eq, h0', h1',
    h2', h8', or_self, if_false, Bool.not_eq_true', beq_eq_false_iff_ne, ne_eq, not_false_eq_true,
    if_true]
  rfl

/-- Witness for C16: the code 31 in the body "error RES31 end". -/
theorem getZipCode_upstream_error_witness :
    (getZipCode plainLower [] (.object sampleAddress) ⟨0, 0, 0⟩
        (.ok { status := 200, statusText := "OK".toList,
               text := .ok "error RES31 end".toList })).result =
      .error "Israeli Post returned error code: 31".toList :=
  getZipCode_upstream_error plainLower [] sampleAddress ⟨0, 0, 0⟩ 200 "OK".toList
    "error RES31 end".toList "error ".toList "1".toList " end".toList '3'
    (by decide) (by decide) (by decide)
    (fun p z q h _ _ =>
      no_occurrence_of_check "error RES31 end".toList ['R', 'E', 'S', '8'] (by decide) p (z ++ q)
        (by rw [h]; simp))
    (by decide) (by decide)
    (by
      intro c hc
      have : c = ' ' := by
        have h : " end".toList.head? = some ' ' := by decide
        rw [h] at hc
        exact (Option.some.inj hc).symm
      subst this
      decide)
    (by decide)
    (fun p c q h _ =>
      le_of_eq (congrArg List.length
        (only_occurrence_of_check "error RES31 end".toList ['R', 'E', 'S'] "error ".toList
          (by decide) p (c :: q) h)).symm)

/-! ## The error messages are distinct -/

set_option maxRecDepth 100000 in
theorem msgUpstreamError_ne_unavailable (resCode : List Char) :
    msgUpstreamError resCode ≠ msgServiceUnavailable := by
  intro h
  have h2 := congrArg (fun l : List Char => l[13]?) h
  have h3 : (msgUpstreamError resCode)[13]? = some 'r' := rfl
  have h4 : msgServiceUnavailable[13]? = some 's' := rfl
  simp only [h3, h4, Option.some.injEq] at h2
  exact absurd h2 (by decide)

/-- C17. For a body received with a successful status the call ends with the
ServiceUnavailable error exactly when the body holds no bot-protection marker and no
"RES" immediately followed by a digit. -/
theorem getZipCode_service_unavailable_iff (u : List Char → Char → List Char → List Char)
    (cache : Cache) (a : Address) (clock : Clock) (status : Nat)
    (statusText body : List Char)
    (hmiss : cacheLookup cache (cacheKeyOf a) clock.atCheck = none)
    (hstatus : 200 ≤ status ∧ status ≤ 299) :
    (getZipCode u cache (.object a) clock
        (.ok { status := status, statusText := statusText, text := .ok body })).result =
      .error msgServiceUnavailable ↔
    (∀ m ∈ captchaIndicators, ¬ m <:+: toLowerCase u body) ∧
      ∀ (p : List Char) (c : Char) (q : List Char),
        body = p ++ ['R', 'E', 'S'] ++ c :: q → ¬ ('0' ≤ c ∧ c ≤ '9') := by
  rw [getZipCode_of_miss u cache a clock _ hmiss, handleFetch_of_body _ _ _ _ _ _ _ hstatus]
  constructor
  · intro h
    have hcap : isCaptchaProtected u body = false := by
      cases hc : isCaptchaProtected u body with
      | false => rfl
      | true =>
        simp only [handleBody, hc, if_true, CallbackArgs.error.injEq] at h
        exact absurd h (by decide)
    have hgen : regexSearch matchRES body = none := by
      cases hg : regexSearch matchRES body with
      | none => rfl
      | some resCode =>
        exfalso
        cases hs : regexSearch matchRES8 body with
        | some z =>
          simp only [handleBody, hcap, hs, Bool.false_eq_true, if_false] at h
          split at h
          · simp only [CallbackArgs.error.injEq] at h
            exact absurd h (by decide)
          · cases h
        | none =>
          rw [handleBody_of_code u cache _ clock body resCode hcap hs hg] at h
          split at h
          · simp only [CallbackArgs.error.injEq] at h
            exact absurd h (by decide)
          · split at h
            · simp only [CallbackArgs.error.injEq] at h
              exact msgUpstreamError_ne_unavailable resCode h
            · simp only [CallbackArgs.error.injEq] at h
              exact absurd h (by decide)
    refine ⟨?_, (regexSearch_matchRES_none body).1 hgen⟩
    intro m hm hin
    have := (isCaptchaProtected_iff u body).2 ⟨m, hm, hin⟩
    rw [hcap] at this
    cases this
  · rintro ⟨hbot, hno⟩
    have hcap := isCaptchaProtected_eq_false u body hbot
    have hgen := (regexSearch_matchRES_none body).2 hno
    have hs : regexSearch matchRES8 body = none := by
      apply regexSearch_matchRES8_none
      intro p z q hpq _ _
      exact hno p '8' (z ++ q) (by rw [hpq]; simp) (by decide)
    simp only [handleBody, hcap, hs, hgen, Bool.false_eq_true, if_false]

/-- Witness for C17: a body without marker and without response code. -/
theorem getZipCode_service_unavailable_iff_witness :
    (getZipCode plainLower [] (.object sampleAddress) ⟨0, 0, 0⟩
        (.ok { status := 200, statusText := "OK".toList,
               text := .ok "<html>RES</html>".toList })).result =
      .error msgServiceUnavailable :=
  (getZipCode_service_unavailable_iff plainLower [] sampleAddress ⟨0, 0, 0⟩ 200 "OK".toList
    "<html>RES</html>".toList (by decide) (by decide)).2
    ⟨by decide, fun p c q h hc => by
      have hp := only_occurrence_of_check "<html>RES</html>".toList ['R', 'E', 'S']
        "<html>".toList (by decide) p (c :: q) h
      subst hp
      have hq : c :: q = "</html>".toList := by
        have h2 : "<html>RES</html>".toList =
            "<html>".toList ++ ['R', 'E', 'S'] ++ "</html>".toList := by decide
        rw [h2] at h
        exact (List.append_cancel_left h).symm
      have hc2 : c = '<' := (List.cons.inj hq).1
      subst hc2
      exact absurd hc (by decide)⟩

/-- C13. An argument that is `null`, `undefined` or not an object ends the call with the
InvalidInput error; no request is issued and the cache, which the result does not depend
on, is left as it was. -/
theorem getZipCode_invalid_input (u : List Char → Char → List Char → List Char)
    (cache : Cache) (address : Input) (clock : Clock) (net : Except FetchError Response)
    (h : ∀ a, address ≠ .object a) :
    getZipCode u cache address clock net =
      { result := .error "Invalid address object provided".toList, cache := cache,
        requests := [] } := by
  cases address with
  | object a => exact absurd rfl (h a)
  | _ => rfl

/-- Witness for C13: `null` on a cache of three entries. -/
theorem getZipCode_invalid_input_witness :
    getZipCode plainLower (sampleCache 3 fun _ => 0) .null ⟨5, 5, 5⟩
        (okResponse "RES81234567".toList) =
      { result := .error "Invalid address object provided".toList,
        cache := sampleCache 3 fun _ => 0, requests := [] } :=
  getZipCode_invalid_input plainLower (sampleCache 3 fun _ => 0) .null ⟨5, 5, 5⟩
    (okResponse "RES81234567".toList) (fun _ h => Input.noConfusion h)

/-- C15. A response whose status is outside the range 200 to 299 ends the call with the
HttpError error carrying the status and the status text; the body is not read, whatever
it holds, and the cache is left as it was. -/
theorem getZipCode_http_error (u : List Char → Char → List Char → List Char)
    (cache : Cache) (a : Address) (clock : Clock) (status : Nat) (statusText : List Char)
    (text : Except FetchError (List Char))
    (hmiss : cacheLookup cache (cacheKeyOf a) clock.atCheck = none)
    (hstatus : status < 200 ∨ 299 < status) :
    (getZipCode u cache (.object a) clock
        (.ok { status := status, statusText := statusText, text := text })).result =
      .error ("HTTP error: ".toList ++ Nat.toDigits 10 status ++ ' ' :: statusText) ∧
    (getZipCode u cache (.object a) clock
        (.ok { status := status, statusText := statusText, text := text })).cache = cache := by
  rw [getZipCode_of_miss u cache a clock _ hmiss]
  have hok : Response.ok { status := status, statusText := statusText, text := text } = false := by
    simp only [Response.ok, Bool.and_eq_false_iff, decide_eq_false_iff_not]
    omega
  simp only [handleFetch, hok, Bool.not_false, if_true, msgHttpError, and_self]

/-- Witness for C15: status 404 with a body that holds a marker and a valid zipcode. -/
theorem getZipCode_http_error_witness :
    (getZipCode plainLower [] (.object sampleAddress) ⟨0, 0, 0⟩
        (.ok { status := 404, statusText := "Not Found".toList,
               text := .ok "captcha page RES81234567".toList })).result =
      .error "HTTP error: 404 Not Found".toList ∧
    (getZipCode plainLower [] (.object sampleAddress) ⟨0, 0, 0⟩
        (.ok { status := 404, statusText := "Not Found".toList,
               text := .ok "captcha page RES81234567".toList })).cache = [] :=
  getZipCode_http_error plainLower [] sampleAddress ⟨0, 0, 0⟩ 404 "Not Found".toList
    (.ok "captcha page RES81234567".toList) (by decide) (by decide)

/-- C12, the code at the failing input.  The house number is the integer 0: its string
form "0" is not empty after trimming, yet `objToParams` emits no pair for `House`, because
the filter first tests the value for truthiness. -/
theorem objToParams_drops_zero :
    objToParams
        [("Location".toList, .string "Tel Aviv".toList), ("Street".toList, .string "Frishman".toList),
         ("House".toList, .number 0), ("Entrance".toList, .undefined)] =
      "Location=Tel%20Aviv&Street=Frishman".toList ∧
    trim (Value.toStr (.number 0)) = "0".toList ∧
    objToParams
        [("Location".toList, .string "Tel Aviv".toList), ("Street".toList, .string "Frishman".toList),
         ("House".toList, .number 7), ("Entrance".toList, .undefined)] =
      "Location=Tel%20Aviv&Street=Frishman&House=7".toList := by
  decide

/-- C14, the code at the failing input.  For the address `{}` and a transport that
answers with status 200 and the body "RES81234567", the call sends the request without
any parameter and ends with the zipcode 1234567, not with an error. -/
theorem getZipCode_empty_address_success :
    getZipCode plainLower [] (.object emptyAddress) ⟨0, 0, 0⟩ (okResponse "RES81234567".toList) =
      { result := .zipcode "1234567".toList,
        cache := [(cacheKeyOf emptyAddress, { zipcode := "1234567".toList, timestamp := 0 })],
        requests := [ISRAEL_POST_URL] } := by
  decide

/-- Counterexample to C18 as stated.  The body "Please solve the CAPTCHA" contains the
marker "captcha" in upper case, and the call ends with the ServiceUnavailable error, not
with the BotProtection error. -/
theorem getZipCode_bare_captcha_not_protected :
    (getZipCode plainLower [] (.object sampleAddress) ⟨0, 0, 0⟩
        (okResponse "Please solve the CAPTCHA".toList)).result = .error msgServiceUnavailable ∧
    isCaptchaProtected plainLower "Please solve the CAPTCHA".toList = false ∧
    "captcha".toList <:+: "Please solve the CAPTCHA".toList.map asciiLower := by
  refine ⟨by decide, by decide, ⟨"please solve the ".toList, [], by decide⟩⟩

/-- C18, amended.  A body received with a successful status that contains, in any letter
case, one of the markers "radware captcha", "captcha page", "shieldsquare",
"perfdrive.com", "protection service", "access denied" or "blocked" ends the call with
the BotProtection error. -/
theorem getZipCode_marker_set (u : List Char → Char → List Char → List Char)
    (cache : Cache) (a : Address) (clock : Clock) (status : Nat)
    (statusText body w : List Char)
    (hmiss : cacheLookup cache (cacheKeyOf a) clock.atCheck = none)
    (hstatus : 200 ≤ status ∧ status ≤ 299)
    (hw : w <:+: body)
    (hmark : w.map asciiLower = "radware captcha".toList ∨
      w.map asciiLower = "captcha page".toList ∨
      w.map asciiLower = "shieldsquare".toList ∨
      w.map asciiLower = "perfdrive.com".toList ∨
      w.map asciiLower = "protection service".toList ∨
      w.map asciiLower = "access denied".toList ∨
      w.map asciiLower = "blocked".toList) :
    (getZipCode u cache (.object a) clock
        (.ok { status := status, statusText := statusText, text := .ok body })).result =
      .error msgBotProtection := by
  have hmem : w.map asciiLower ∈ captchaIndicators := by
    rcases hmark with h | h | h | h | h | h | h <;> rw [h] <;> decide
  have hcap : isCaptchaProtected u body = true :=
    (isCaptchaProtected_iff u body).2
      ⟨_, hmem, toLowerCase_infix_of_ascii u body w _ hmem hw rfl⟩
  rw [getZipCode_of_miss u cache a clock _ hmiss, handleFetch_of_body _ _ _ _ _ _ _ hstatus]
  simp [handleBody, hcap]

/-- Witness for C18, amended: "Access Denied" in mixed case. -/
theorem getZipCode_marker_set_witness :
    (getZipCode plainLower [] (.object sampleAddress) ⟨0, 0, 0⟩
        (.ok { status := 200, statusText := "OK".toList,
               text := .ok "403 Access Denied".toList })).result = .error msgBotProtection :=
  getZipCode_marker_set plainLower [] sampleAddress ⟨0, 0, 0⟩ 200 "OK".toList
    "403 Access Denied".toList "Access Denied".toList (by decide) (by decide)
    ⟨"403 ".toList, [], by decide⟩
    (Or.inr (Or.inr (Or.inr (Or.inr (Or.inr (Or.inl (by decide)))))))

/-! ## Every zipcode in the cache is valid -/

theorem isValidIsraeliZipcode_sound (z : List Char) (h : isValidIsraeliZipcode z = true) :
    z.length = 7 ∧ (∀ c ∈ z, '0' ≤ c ∧ c ≤ '9') ∧ z.head? ≠ some '0' := by
  cases z with
  | nil => simp [isValidIsraeliZipcode] at h
  | cons c cs =>
    simp only [isValidIsraeliZipcode, Bool.and_eq_true] at h
    obtain ⟨hc, hm⟩ := h
    have hc2 := (isNonZeroDigitChar_iff c).1 hc
    split at hm
    · next ds hd =>
      obtain ⟨h1, h2, h3⟩ := matchDigitsExact_sound 6 cs ds [] hd
      rw [List.append_nil] at h1
      subst h1
      refine ⟨by simp [h2], ?_, ?_⟩
      · intro x hx
        rcases List.mem_cons.1 hx with rfl | hx
        · exact ⟨le_trans (by decide) hc2.1, hc2.2⟩
        · exact (isDigitChar_iff x).1 (h3 x hx)
      · intro h0
        simp only [List.head?_cons, Option.some.injEq] at h0
        subst h0
        exact absurd hc2.1 (by decide)
    · cases hm

theorem mapSet_mem (cache : Cache) (key : List Char) (v : CacheEntry)
    (kv : List Char × CacheEntry) (h : kv ∈ mapSet cache key v) : kv ∈ cache ∨ kv = (key, v) := by
  induction cache with
  | nil =>
    simp only [mapSet, List.mem_singleton] at h
    exact Or.inr h
  | cons x rest ih =>
    obtain ⟨k, w⟩ := x
    by_cases hk : k = key
    · simp only [mapSet, hk, if_true, List.mem_cons] at h
      rcases h with h | h
      · exact Or.inr h
      · exact Or.inl (List.mem_cons_of_mem _ h)
    · simp only [mapSet, hk, if_false, List.mem_cons] at h
      rcases h with h | h
      · exact Or.inl (h ▸ List.mem_cons_self _ _)
      · rcases ih h with h2 | h2
        · exact Or.inl (List.mem_cons_of_mem _ h2)
        · exact Or.inr h2

theorem cachePut_AllValid (cache : Cache) (key z : List Char) (clock : Clock)
    (hc : cache.AllValid) (hz : isValidIsraeliZipcode z = true) :
    (cachePut cache key z clock).AllValid := by
  have h1 : Cache.AllValid (mapSet cache key { zipcode := z, timestamp := clock.atSet }) := by
    intro kv hkv
    rcases mapSet_mem cache key _ kv hkv with h | h
    · exact hc kv h
    · rw [h]; exact hz
  unfold cachePut
  simp only
  split
  · intro kv hkv
    rw [sweepLoop_eq_filter] at hkv
    exact h1 kv (List.mem_filter.1 hkv).1
  · exact h1

theorem getZipCode_AllValid (u : List Char → Char → List Char → List Char) (cache : Cache)
    (address : Input) (clock : Clock) (net : Except FetchError Response)
    (hc : cache.AllValid) :
    (getZipCode u cache address clock net).cache.AllValid ∧
      ∀ z, (getZipCode u cache address clock net).result = .zipcode z →
        isValidIsraeliZipcode z = true := by
  cases address with
  | object a =>
    rcases getZipCode_cases u cache a clock net with ⟨z0, hl, h0⟩ | ⟨m, _, h0⟩ | ⟨z0, _, hv, h0⟩
    · rw [h0]
      refine ⟨hc, ?_⟩
      intro z hz
      simp only [CallbackArgs.zipcode.injEq] at hz
      subst hz
      obtain ⟨e, he, -, hez⟩ := (cacheLookup_eq_some _ _ _ _).1 hl
      rw [← hez]
      exact hc _ (mem_of_mapGet cache _ e he)
    · rw [h0]
      exact ⟨hc, fun z hz => by cases hz⟩
    · rw [h0]
      refine ⟨cachePut_AllValid cache _ z0 clock hc hv, ?_⟩
      intro z hz
      simp only [CallbackArgs.zipcode.injEq] at hz
      subst hz
      exact hv
  | _ => exact ⟨hc, fun z hz => by cases hz⟩

theorem runCalls_AllValid (u : List Char → Char → List Char → List Char) (cache : Cache)
    (calls : List Call) (hc : cache.AllValid) :
    (runCalls u cache calls).1.AllValid ∧
      ∀ z, CallbackArgs.zipcode z ∈ (runCalls u cache calls).2 →
        isValidIsraeliZipcode z = true := by
  induction calls generalizing cache with
  | nil => exact ⟨hc, fun z hz => by simp [runCalls] at hz⟩
  | cons c cs ih =>
    obtain ⟨h1, h2⟩ := getZipCode_AllValid u cache c.address c.clock c.net hc
    obtain ⟨h3, h4⟩ := ih _ h1
    refine ⟨h3, ?_⟩
    intro z hz
    simp only [runCalls, List.mem_cons] at hz
    rcases hz with hz | hz
    · exact h2 z hz.symm
    · exact h4 z hz

/-- C19. Starting from the empty cache, after any sequence of calls of `getZipCode`, with
arbitrary arguments, clock readings and transport behaviour, every entry of the cache
holds a zipcode accepted by `isValidIsraeliZipcode`, and every zipcode a callback
received, from the network or from the cache, is accepted by it, hence consists of seven
digits the first of which is not 0. -/
theorem runCalls_valid_zipcodes (u : List Char → Char → List Char → List Char)
    (calls : List Call) :
    (∀ kv ∈ (runCalls u [] calls).1, isValidIsraeliZipcode kv.2.zipcode = true) ∧
    (∀ z, CallbackArgs.zipcode z ∈ (runCalls u [] calls).2 →
      isValidIsraeliZipcode z = true ∧ z.length = 7 ∧ (∀ c ∈ z, '0' ≤ c ∧ c ≤ '9') ∧
        z.head? ≠ some '0') := by
  obtain ⟨h1, h2⟩ := runCalls_AllValid u [] calls (fun kv hkv => by cases hkv)
  refine ⟨h1, ?_⟩
  intro z hz
  have hv := h2 z hz
  obtain ⟨hlen, hdig, hhead⟩ := isValidIsraeliZipcode_sound z hv
  exact ⟨hv, hlen, hdig, hhead⟩

/-! ## JSON string literals can be read back -/

set_option maxRecDepth 100000 in
theorem jsonEscapeChar_code_small :
    ∀ n1 < 93, ∀ n2 < 93,
      (jsonEscapeChar (Char.ofNat n1)).isPrefixOf (jsonEscapeChar (Char.ofNat n2)) = true →
        n1 = n2 := by
  decide

set_option maxRecDepth 100000 in
theorem jsonEscapeChar_head_small :
    ∀ n < 93, (jsonEscapeChar (Char.ofNat n)).head?.isSome = true ∧
      ∀ x ∈ (jsonEscapeChar (Char.ofNat n)).take 1, x.toNat < 93 ∧ x.toNat ≠ 34 := by
  decide

theorem jsonEscapeChar_large (c : Char) (h : 93 ≤ c.toNat) : jsonEscapeChar c = [c] := by
  unfold jsonEscapeChar
  simp only
  rw [if_neg (by omega), if_neg (by omega), if_neg (by omega), if_neg (by omega),
    if_neg (by omega), if_neg (by omega), if_neg (by omega), if_neg (by omega)]

theorem jsonEscapeChar_head (c : Char) :
    ∃ x xs, jsonEscapeChar c = x :: xs ∧ x.toNat ≠ 34 ∧ (c.toNat < 93 → x.toNat < 93) := by
  by_cases h : c.toNat < 93
  · obtain ⟨h1, h2⟩ := jsonEscapeChar_head_small c.toNat h
    rw [Char.ofNat_toNat] at h1 h2
    cases he : jsonEscapeChar c with
    | nil => rw [he] at h1; cases h1
    | cons x xs =>
      rw [he] at h2
      have := h2 x (by simp)
      exact ⟨x, xs, rfl, this.2, fun _ => this.1⟩
  · have h93 : 93 ≤ c.toNat := Nat.le_of_not_lt h
    exact ⟨c, [], jsonEscapeChar_large c h93, by omega, fun h2 => absurd h2 h⟩

theorem jsonEscapeChar_isPrefix (c1 c2 : Char)
    (h : jsonEscapeChar c1 <+: jsonEscapeChar c2) : c1 = c2 := by
  by_cases h1 : c1.toNat < 93
  · by_cases h2 : c2.toNat < 93
    · have := jsonEscapeChar_code_small c1.toNat h1 c2.toNat h2
      rw [Char.ofNat_toNat, Char.ofNat_toNat] at this
      have hn := this (List.isPrefixOf_iff_prefix.2 h)
      rw [← Char.ofNat_toNat c1, ← Char.ofNat_toNat c2, hn]
    · exfalso
      rw [jsonEscapeChar_large c2 (Nat.le_of_not_lt h2)] at h
      obtain ⟨x, xs, hx, -, hx93⟩ := jsonEscapeChar_head c1
      rw [hx] at h
      obtain ⟨t, ht⟩ := h
      simp only [List.cons_append, List.cons.injEq] at ht
      have := hx93 h1
      rw [ht.1] at this
      exact h2 this
  · rw [jsonEscapeChar_large c1 (Nat.le_of_not_lt h1)] at h
    obtain ⟨x, xs, hx, -, hx93⟩ := jsonEscapeChar_head c2
    rw [hx] at h
    obtain ⟨t, ht⟩ := h
    simp only [List.cons_append, List.cons.injEq] at ht
    by_cases h2 : c2.toNat < 93
    · exfalso
      have := hx93 h2
      rw [← ht.1] at this
      exact h1 this
    · rw [jsonEscapeChar_large c2 (Nat.le_of_not_lt h2)] at hx
      simp only [List.cons.injEq] at hx
      rw [ht.1, ← hx.1]

theorem jsonEscapeChar_inj (c1 c2 : Char) (t1 t2 : List Char)
    (h : jsonEscapeChar c1 ++ t1 = jsonEscapeChar c2 ++ t2) : c1 = c2 ∧ t1 = t2 := by
  have hc : c1 = c2 := by
    rcases List.append_eq_append_iff.1 h with ⟨a, ha, -⟩ | ⟨a, ha, -⟩
    · exact jsonEscapeChar_isPrefix c1 c2 ⟨a, ha.symm⟩
    · exact (jsonEscapeChar_isPrefix c2 c1 ⟨a, ha.symm⟩).symm
  subst hc
  exact ⟨rfl, List.append_cancel_left h⟩

/-- The escaped text of a string literal, closed by its quote, determines the string and
what follows the literal. -/
theorem jsonEscape_inj (s1 s2 r1 r2 : List Char)
    (h : s1.flatMap jsonEscapeChar ++ Char.ofNat 34 :: r1 =
      s2.flatMap jsonEscapeChar ++ Char.ofNat 34 :: r2) : s1 = s2 ∧ r1 = r2 := by
  induction s1 generalizing s2 with
  | nil =>
    cases s2 with
    | nil => simpa using h
    | cons c s =>
      exfalso
      obtain ⟨x, xs, hx, hq, -⟩ := jsonEscapeChar_head c
      simp only [List.flatMap_nil, List.nil_append, List.flatMap_cons, hx, List.cons_append,
        List.cons.injEq] at h
      exact hq (by rw [← h.1]; rfl)
  | cons c s ih =>
    cases s2 with
    | nil =>
      exfalso
      obtain ⟨x, xs, hx, hq, -⟩ := jsonEscapeChar_head c
      simp only [List.flatMap_nil, List.nil_append, List.flatMap_cons, hx, List.cons_append,
        List.cons.injEq] at h
      exact hq (by rw [h.1]; rfl)
    | cons c2 s2 =>
      simp only [List.flatMap_cons, List.append_assoc] at h
      obtain ⟨hc, ht⟩ := jsonEscapeChar_inj c c2 _ _ h
      obtain ⟨hs, hr⟩ := ih s2 ht
      exact ⟨by rw [hc, hs], hr⟩

theorem jsonQuote_inj (s1 s2 r1 r2 : List Char)
    (h : jsonQuote s1 ++ r1 = jsonQuote s2 ++ r2) : s1 = s2 ∧ r1 = r2 := by
  simp only [jsonQuote, List.cons_append, List.append_assoc, List.cons.injEq, true_and,
    List.nil_append] at h
  exact jsonEscape_inj s1 s2 r1 r2 h

/-! ## Decimal numerals can be read back -/

theorem digitChar_small :
    ∀ k < 10, isDigitChar (Nat.digitChar k) = true ∧ (Nat.digitChar k).toNat - 48 = k := by
  decide

theorem toDigitsCore_digits (fuel n : Nat) (ds : List Char)
    (h : ∀ c ∈ ds, isDigitChar c = true) :
    ∀ c ∈ Nat.toDigitsCore 10 fuel n ds, isDigitChar c = true := by
  induction fuel generalizing n ds with
  | zero => simpa [Nat.toDigitsCore] using h
  | succ fuel ih =>
    have hd : isDigitChar (Nat.digitChar (n % 10)) = true :=
      (digitChar_small (n % 10) (Nat.mod_lt _ (by decide))).1
    have hds : ∀ c ∈ Nat.digitChar (n % 10) :: ds, isDigitChar c = true := by
      intro c hc
      rcases List.mem_cons.1 hc with rfl | hc
      · exact hd
      · exact h c hc
    simp only [Nat.toDigitsCore]
    split
    · exact hds
    · exact ih (n / 10) _ hds

theorem toDigitsCore_decode (fuel n : Nat) (ds : List Char) (h : n < fuel) :
    (Nat.toDigitsCore 10 fuel n ds).foldl (fun a c => 10 * a + (c.toNat - 48)) 0 =
      ds.foldl (fun a c => 10 * a + (c.toNat - 48)) n := by
  induction fuel generalizing n ds with
  | zero => omega
  | succ fuel ih =>
    have hd : (Nat.digitChar (n % 10)).toNat - 48 = n % 10 :=
      (digitChar_small (n % 10) (Nat.mod_lt _ (by decide))).2
    simp only [Nat.toDigitsCore]
    split
    · next h0 =>
      have hn : n % 10 = n := by omega
      rw [hn] at hd
      simp only [List.foldl_cons, hd, hn, Nat.mul_zero, Nat.zero_add]
    · next h0 =>
      rw [ih (n / 10) _ (by omega)]
      have hn : 10 * (n / 10) + n % 10 = n := Nat.div_add_mod n 10
      simp only [List.foldl_cons, hd, hn]

theorem toDigits_inj (n m : Nat) (h : Nat.toDigits 10 n = Nat.toDigits 10 m) : n = m := by
  have hn := toDigitsCore_decode (n + 1) n [] (Nat.lt_succ_self n)
  have hm := toDigitsCore_decode (m + 1) m [] (Nat.lt_succ_self m)
  simp only [List.foldl_nil] at hn hm
  unfold Nat.toDigits at h
  rw [← hn, ← hm, h]

theorem toDigits_digits (n : Nat) : ∀ c ∈ Nat.toDigits 10 n, isDigitChar c = true :=
  toDigitsCore_digits (n + 1) n [] (fun c hc => by cases hc)

theorem toDigits_head (n : Nat) :
    ∃ x xs, Nat.toDigits 10 n = x :: xs ∧ isDigitChar x = true := by
  cases hd : Nat.toDigits 10 n with
  | nil =>
    exfalso
    have h0 : Nat.toDigits 10 n = Nat.toDigits 10 0 → n = 0 := toDigits_inj n 0
    have hn := toDigitsCore_decode (n + 1) n [] (Nat.lt_succ_self n)
    unfold Nat.toDigits at hd
    rw [hd] at hn
    simp only [List.foldl_nil] at hn
    subst hn
    revert hd
    decide
  | cons x xs =>
    refine ⟨x, xs, rfl, ?_⟩
    exact toDigits_digits n x (by rw [hd]; exact List.mem_cons_self _ _)

theorem toDigits_append_inj (n m : Nat) (t1 t2 : List Char)
    (ht1 : ∀ c, t1.head? = some c → isDigitChar c = false)
    (ht2 : ∀ c, t2.head? = some c → isDigitChar c = false)
    (h : Nat.toDigits 10 n ++ t1 = Nat.toDigits 10 m ++ t2) : n = m ∧ t1 = t2 := by
  have h1 := takeDigits_append (Nat.toDigits 10 n) t1 (toDigits_digits n) ht1
  have h2 := takeDigits_append (Nat.toDigits 10 m) t2 (toDigits_digits m) ht2
  have hd : Nat.toDigits 10 n = Nat.toDigits 10 m := by rw [← h1, ← h2, h]
  have hnm := toDigits_inj n m hd
  subst hnm
  exact ⟨rfl, List.append_cancel_left h⟩

/-! ## The text of a number can be read back -/

set_option maxRecDepth 100000 in
/-- The text of some numbers: safe integers, a negative one, 2 ^ 53 + 1 (which is the
double 2 ^ 53), 2 ^ 64 and 10 ^ 21. -/
theorem intToString_examples :
    intToString 7 = "7".toList ∧ intToString 0 = "0".toList ∧
    intToString (-12) = "-12".toList ∧
    intToString 9007199254740991 = "9007199254740991".toList ∧
    intToString 9007199254740993 = "9007199254740992".toList ∧
    intToString 18446744073709551616 = "18446744073709552000".toList ∧
    intToString 1000000000000000000000 = "1e+21".toList ∧
    intToString 1180591620717411303424 = "1.1805916207174113e+21".toList := by
  decide

theorem shortestDecimal_round (d : Nat) (h : toDouble d = d) :
    toDouble (shortestDecimal d) = d := by
  unfold shortestDecimal
  split
  · exact h
  · split
    · next c hc =>
      have := List.find?_some hc
      simp only [Bool.and_eq_true, decide_eq_true_eq] at this
      exact this.2
    · exact h

theorem stripZeros_append (ds : List Char) :
    ds = stripZeros ds ++ List.replicate (ds.length - (stripZeros ds).length) '0' := by
  have h1 := List.takeWhile_append_dropWhile (fun c => c == '0') ds.reverse
  have h2 : ds.reverse.takeWhile (fun c => c == '0') =
      List.replicate (ds.reverse.takeWhile fun c => c == '0').length '0' := by
    rw [List.eq_replicate_iff]
    refine ⟨rfl, ?_⟩
    intro b hb
    have := List.mem_takeWhile_imp hb
    simpa using this
  have h3 : ds = (ds.reverse.dropWhile fun c => c == '0').reverse ++
      (ds.reverse.takeWhile fun c => c == '0').reverse := by
    rw [← List.reverse_append, h1, List.reverse_reverse]
  have hlen : ds.length = (ds.reverse.takeWhile fun c => c == '0').length +
      (ds.reverse.dropWhile fun c => c == '0').length := by
    have := congrArg List.length h1
    simp only [List.length_append, List.length_reverse] at this
    omega
  unfold stripZeros
  rw [List.length_reverse]
  have hm : ds.length - (ds.reverse.dropWhile fun c => c == '0').length =
      (ds.reverse.takeWhile fun c => c == '0').length := by omega
  rw [hm]
  conv_lhs => rw [h3]
  rw [h2, List.reverse_replicate, List.length_replicate]

theorem stripZeros_mem (ds : List Char) (c : Char) (h : c ∈ stripZeros ds) : c ∈ ds := by
  unfold stripZeros at h
  rw [List.mem_reverse] at h
  exact List.mem_reverse.1 ((List.dropWhile_sublist _).subset h)

/-- Two texts cut at the first occurrence of a character. -/
theorem split_at_first (x : Char) (m1 m2 r1 r2 : List Char)
    (h1 : x ∉ m1) (h2 : x ∉ m2) (h : m1 ++ x :: r1 = m2 ++ x :: r2) : m1 = m2 ∧ r1 = r2 := by
  induction m1 generalizing m2 with
  | nil =>
    cases m2 with
    | nil => simpa using h
    | cons c m2 =>
      simp only [List.nil_append, List.cons_append, List.cons.injEq] at h
      exact absurd (h.1 ▸ List.mem_cons_self _ _) h2
  | cons c m1 ih =>
    cases m2 with
    | nil =>
      simp only [List.nil_append, List.cons_append, List.cons.injEq] at h
      exact absurd (h.1 ▸ List.mem_cons_self _ _) h1
    | cons c2 m2 =>
      simp only [List.cons_append, List.cons.injEq] at h
      obtain ⟨hm, hr⟩ := ih m2 (fun hx => h1 (List.mem_cons_of_mem _ hx))
        (fun hx => h2 (List.mem_cons_of_mem _ hx)) h.2
      exact ⟨by rw [h.1, hm], hr⟩

/-- The two shapes of the text of a number: the plain numeral, or the exponent form. -/
theorem formatDecimal_form (v : Nat) :
    formatDecimal v = Nat.toDigits 10 v ∨
      (21 < (Nat.toDigits 10 v).length ∧ ∃ d rest,
        stripZeros (Nat.toDigits 10 v) = d :: rest ∧
        formatDecimal v =
          d :: ((if rest = [] then [] else '.' :: rest) ++
            'e' :: '+' :: Nat.toDigits 10 ((Nat.toDigits 10 v).length - 1))) := by
  unfold formatDecimal
  simp only
  split
  · exact Or.inl rfl
  · next hlen =>
    split
    · exact Or.inl rfl
    · next d hs => exact Or.inr ⟨by omega, d, [], hs, by simp⟩
    · next d rest hne hs =>
      refine Or.inr ⟨by omega, d, rest, hs, ?_⟩
      have : rest ≠ [] := fun h0 => hne h0
      simp [this]

theorem formatDecimal_inj (v w : Nat) (h : formatDecimal v = formatDecimal w) : v = w := by
  have hnote : ∀ u : Nat, 'e' ∉ Nat.toDigits 10 u := by
    intro u hu
    have := toDigits_digits u 'e' hu
    revert this
    decide
  rcases formatDecimal_form v with hv | ⟨hlv, d1, rest1, hs1, hv⟩ <;>
  rcases formatDecimal_form w with hw | ⟨hlw, d2, rest2, hs2, hw⟩
  · exact toDigits_inj v w (by rw [← hv, ← hw, h])
  · exfalso
    rw [hv, hw] at h
    apply hnote v
    rw [h]
    simp
  · exfalso
    rw [hv, hw] at h
    apply hnote w
    rw [← h]
    simp
  · rw [hv, hw] at h
    simp only [List.cons.injEq] at h
    obtain ⟨hd, ht⟩ := h
    have hrest : ∀ (u : Nat) (d : Char) (rest : List Char),
        stripZeros (Nat.toDigits 10 u) = d :: rest →
          'e' ∉ (if rest = [] then [] else '.' :: rest) := by
      intro u d rest hs hmem
      by_cases hr : rest = []
      · simp [hr] at hmem
      · simp only [hr, if_false, List.mem_cons] at hmem
        rcases hmem with hmem | hmem
        · revert hmem; decide
        · exact hnote u (stripZeros_mem _ _ (by rw [hs]; exact List.mem_cons_of_mem _ hmem))
    obtain ⟨hx, hr⟩ := split_at_first 'e' _ _ _ _ (hrest v d1 rest1 hs1) (hrest w d2 rest2 hs2) ht
    simp only [List.cons.injEq, true_and] at hr
    have hlen := toDigits_inj _ _ hr
    have hlen2 : (Nat.toDigits 10 v).length = (Nat.toDigits 10 w).length := by omega
    have hrr : rest1 = rest2 := by
      by_cases h1 : rest1 = []
      · by_cases h2 : rest2 = []
        · rw [h1, h2]
        · simp [h1, h2] at hx
      · by_cases h2 : rest2 = []
        · simp [h1, h2] at hx
        · simpa [h1, h2] using hx
    have hstrip : stripZeros (Nat.toDigits 10 v) = stripZeros (Nat.toDigits 10 w) := by
      rw [hs1, hs2, hd, hrr]
    apply toDigits_inj
    rw [stripZeros_append (Nat.toDigits 10 v), stripZeros_append (Nat.toDigits 10 w), hstrip, hlen2]

theorem isNumberChar_of_digit (c : Char) (h : isDigitChar c = true) : isNumberChar c = true := by
  simp [isNumberChar, h]

theorem formatDecimal_chars (v : Nat) : ∀ c ∈ formatDecimal v, isNumberChar c = true := by
  intro c hc
  rcases formatDecimal_form v with hv | ⟨-, d, rest, hs, hv⟩
  · rw [hv] at hc
    exact isNumberChar_of_digit c (toDigits_digits v c hc)
  · rw [hv] at hc
    have hsig : ∀ x ∈ d :: rest, isNumberChar x = true := by
      intro x hx
      exact isNumberChar_of_digit x (toDigits_digits v x (stripZeros_mem _ _ (by rw [hs]; exact hx)))
    simp only [List.mem_cons, List.mem_append] at hc
    rcases hc with rfl | hc | rfl | rfl | hc
    · exact hsig _ (List.mem_cons_self _ _)
    · by_cases hr : rest = []
      · simp [hr] at hc
      · simp only [hr, if_false, List.mem_cons] at hc
        rcases hc with rfl | hc
        · decide
        · exact hsig c (List.mem_cons_of_mem _ hc)
    · decide
    · decide
    · exact isNumberChar_of_digit c (toDigits_digits _ c hc)

theorem formatDecimal_head (v : Nat) :
    ∃ x xs, formatDecimal v = x :: xs ∧ isDigitChar x = true := by
  rcases formatDecimal_form v with hv | ⟨-, d, rest, hs, hv⟩
  · obtain ⟨x, xs, hx, hd⟩ := toDigits_head v
    exact ⟨x, xs, by rw [hv, hx], hd⟩
  · exact ⟨d, _, hv, toDigits_digits v d (stripZeros_mem _ _ (by rw [hs]; exact List.mem_cons_self _ _))⟩

/-- Texts made of the characters `p` accepts, each followed by the end or by a character
`p` refuses, are equal when the whole is. -/
theorem span_unique (p : Char → Bool) (a1 a2 t1 t2 : List Char)
    (ha1 : ∀ c ∈ a1, p c = true) (ha2 : ∀ c ∈ a2, p c = true)
    (ht1 : ∀ c, t1.head? = some c → p c = false)
    (ht2 : ∀ c, t2.head? = some c → p c = false)
    (h : a1 ++ t1 = a2 ++ t2) : a1 = a2 ∧ t1 = t2 := by
  induction a1 generalizing a2 with
  | nil =>
    cases a2 with
    | nil => exact ⟨rfl, by simpa using h⟩
    | cons c a2 =>
      exfalso
      simp only [List.nil_append, List.cons_append] at h
      have := ht1 c (by rw [h]; rfl)
      rw [ha2 c (List.mem_cons_self _ _)] at this
      cases this
  | cons c a1 ih =>
    cases a2 with
    | nil =>
      exfalso
      simp only [List.nil_append, List.cons_append] at h
      have := ht2 c (by rw [← h]; rfl)
      rw [ha1 c (List.mem_cons_self _ _)] at this
      cases this
    | cons c2 a2 =>
      simp only [List.cons_append, List.cons.injEq] at h
      obtain ⟨ha, ht⟩ := ih a2 (fun x hx => ha1 x (List.mem_cons_of_mem _ hx))
        (fun x hx => ha2 x (List.mem_cons_of_mem _ hx)) h.2
      exact ⟨by rw [h.1, ha], ht⟩

theorem intToString_head (n : Int) :
    ∃ x xs, intToString n = x :: xs ∧ (x = '-' ∨ isDigitChar x = true) := by
  unfold intToString
  split
  · exact ⟨'-', _, rfl, Or.inl rfl⟩
  · obtain ⟨x, xs, hx, hd⟩ := formatDecimal_head (shortestDecimal (toDouble n.toNat))
    exact ⟨x, xs, hx, Or.inr hd⟩

theorem intToString_chars (n : Int) : ∀ c ∈ intToString n, isNumberChar c = true := by
  intro c hc
  unfold intToString at hc
  split at hc
  · rcases List.mem_cons.1 hc with rfl | hc
    · decide
    · exact formatDecimal_chars _ c hc
  · exact formatDecimal_chars _ c hc

/-- The texts of two doubles with integer values, each followed by the end or by a
character that no number contains, are equal only for the same number. -/
theorem intToString_append_inj (n m : Int) (t1 t2 : List Char)
    (hn : isDoubleInt n = true) (hm : isDoubleInt m = true)
    (ht1 : ∀ c, t1.head? = some c → isNumberChar c = false)
    (ht2 : ∀ c, t2.head? = some c → isNumberChar c = false)
    (h : intToString n ++ t1 = intToString m ++ t2) : n = m ∧ t1 = t2 := by
  obtain ⟨hs, ht⟩ := span_unique isNumberChar _ _ t1 t2 (intToString_chars n)
    (intToString_chars m) ht1 ht2 h
  refine ⟨?_, ht⟩
  simp only [isDoubleInt, Bool.and_eq_true, decide_eq_true_eq] at hn hm
  have key : ∀ a b : Nat, toDouble a = a → toDouble b = b →
      formatDecimal (shortestDecimal (toDouble a)) =
        formatDecimal (shortestDecimal (toDouble b)) → a = b := by
    intro a b ha hb hf
    have h1 := formatDecimal_inj _ _ hf
    rw [ha, hb] at h1
    have h2 := shortestDecimal_round a ha
    rw [h1, shortestDecimal_round b hb] at h2
    exact h2.symm
  unfold intToString at hs
  by_cases h1 : n < 0
  · by_cases h2 : m < 0
    · simp only [h1, h2, if_true, List.cons.injEq, true_and] at hs
      have := key n.natAbs m.natAbs hn.1 hm.1 hs
      omega
    · exfalso
      simp only [h1, h2, if_true, if_false] at hs
      obtain ⟨x, xs, hx, hd⟩ := formatDecimal_head (shortestDecimal (toDouble m.toNat))
      rw [hx] at hs
      simp only [List.cons.injEq] at hs
      rw [← hs.1] at hd
      revert hd
      decide
  · by_cases h2 : m < 0
    · exfalso
      simp only [h1, h2, if_true, if_false] at hs
      obtain ⟨x, xs, hx, hd⟩ := formatDecimal_head (shortestDecimal (toDouble n.toNat))
      rw [hx] at hs
      simp only [List.cons.injEq] at hs
      rw [hs.1] at hd
      revert hd
      decide
    · simp only [h1, h2, if_false] at hs
      have e1 : n.toNat = n.natAbs := by omega
      have e2 : m.toNat = m.natAbs := by omega
      rw [e1, e2] at hs
      have := key n.natAbs m.natAbs hn.1 hm.1 hs
      omega

/-! ## The cache key determines the address -/

theorem intersperse_comma_flatten (ms : List (List Char)) :
    (List.intersperse [','] ms).flatten = ((ms.map fun m => ',' :: m).flatten).drop 1 := by
  induction ms with
  | nil => rfl
  | cons m rest ih =>
    cases rest with
    | nil => simp
    | cons m2 rest =>
      simp only [List.intersperse, List.flatten_cons, ih, List.map_cons, List.cons_append,
        List.drop_succ_cons, List.drop_zero, List.singleton_append, List.nil_append]

theorem jsonMembers_eq (props : List (List Char × Value)) :
    jsonMembers props =
      ((props.filterMap fun kv =>
          match jsonValue kv.2 with
          | some v => some (jsonQuote kv.1 ++ ':' :: v)
          | none => none).map fun m => ',' :: m).flatten := by
  induction props with
  | nil => rfl
  | cons kv ps ih =>
    obtain ⟨k, v⟩ := kv
    cases hv : jsonValue v with
    | none => simp [jsonMembers, hv, ih, List.filterMap_cons]
    | some e => simp [jsonMembers, hv, ih, List.filterMap_cons]

theorem jsonStringify_eq (props : List (List Char × Value)) :
    jsonStringify props =
      Char.ofNat 123 :: ((jsonMembers props).drop 1 ++ [Char.ofNat 125]) := by
  rw [jsonMembers_eq, ← intersperse_comma_flatten]
  rfl

theorem jsonMembers_head (props : List (List Char × Value)) :
    jsonMembers props = [] ∨
      ∃ k ∈ props.map Prod.fst, ∃ x, jsonMembers props = ',' :: (jsonQuote k ++ ':' :: x) := by
  induction props with
  | nil => exact Or.inl rfl
  | cons kv ps ih =>
    obtain ⟨k, v⟩ := kv
    cases hv : jsonValue v with
    | none =>
      simp only [jsonMembers, hv, List.nil_append, List.map_cons, List.mem_cons]
      rcases ih with h | ⟨k2, hk2, x, hx⟩
      · exact Or.inl h
      · exact Or.inr ⟨k2, Or.inr hk2, x, hx⟩
    | some e =>
      refine Or.inr ⟨k, List.mem_cons_self _ _, e ++ jsonMembers ps, ?_⟩
      simp only [jsonMembers, hv, List.cons_append, List.append_assoc]

theorem jsonMembers_head_not_number (props : List (List Char × Value)) :
    ∀ c, (jsonMembers props).head? = some c → isNumberChar c = false := by
  intro c hc
  rcases jsonMembers_head props with h | ⟨k, -, x, hx⟩
  · rw [h] at hc; cases hc
  · rw [hx] at hc
    simp only [List.head?_cons, Option.some.injEq] at hc
    subst hc
    decide

/-- The text of a value of JavaScript, followed by nothing or by a comma, determines the
value. -/
theorem jsonValue_append_inj (v1 v2 : Value) (e1 e2 t1 t2 : List Char)
    (h1 : jsonValue v1 = some e1) (h2 : jsonValue v2 = some e2)
    (hj1 : v1.isJS = true) (hj2 : v2.isJS = true)
    (ht1 : ∀ c, t1.head? = some c → isNumberChar c = false)
    (ht2 : ∀ c, t2.head? = some c → isNumberChar c = false)
    (h : e1 ++ t1 = e2 ++ t2) : v1 = v2 ∧ t1 = t2 := by
  cases v1 with
  | undefined => cases h1
  | string s1 =>
    simp only [jsonValue, Option.some.injEq] at h1
    subst h1
    cases v2 with
    | undefined => cases h2
    | string s2 =>
      simp only [jsonValue, Option.some.injEq] at h2
      subst h2
      obtain ⟨hs, ht⟩ := jsonQuote_inj s1 s2 t1 t2 h
      exact ⟨by rw [hs], ht⟩
    | number n2 =>
      exfalso
      simp only [jsonValue, Option.some.injEq] at h2
      subst h2
      obtain ⟨x, xs, hx, hd⟩ := intToString_head n2
      rw [hx] at h
      simp only [jsonQuote, List.cons_append, List.cons.injEq] at h
      rcases hd with hd | hd
      · rw [← h.1] at hd; revert hd; decide
      · rw [← h.1] at hd; revert hd; decide
  | number n1 =>
    simp only [jsonValue, Option.some.injEq] at h1
    subst h1
    cases v2 with
    | undefined => cases h2
    | string s2 =>
      exfalso
      simp only [jsonValue, Option.some.injEq] at h2
      subst h2
      obtain ⟨x, xs, hx, hd⟩ := intToString_head n1
      rw [hx] at h
      simp only [jsonQuote, List.cons_append, List.cons.injEq] at h
      rcases hd with hd | hd
      · rw [h.1] at hd; revert hd; decide
      · rw [h.1] at hd; revert hd; decide
    | number n2 =>
      simp only [jsonValue, Option.some.injEq] at h2
      subst h2
      obtain ⟨hn, ht⟩ := intToString_append_inj n1 n2 t1 t2 hj1 hj2 ht1 ht2 h
      exact ⟨by rw [hn], ht⟩

theorem jsonMembers_ne_of_absent (k : List Char) (ps : List (List Char × Value))
    (x : List Char) (hk : k ∉ ps.map Prod.fst) :
    jsonMembers ps ≠ ',' :: (jsonQuote k ++ ':' :: x) := by
  intro h
  rcases jsonMembers_head ps with h0 | ⟨k2, hk2, y, hy⟩
  · rw [h0] at h; cases h
  · rw [hy] at h
    simp only [List.cons.injEq, true_and] at h
    obtain ⟨hkk, -⟩ := jsonQuote_inj k2 k _ _ h
    rw [hkk] at hk2
    exact hk hk2

/-- Objects with the same keys, each key once, and the same members have the same
values. -/
theorem jsonMembers_inj (p1 p2 : List (List Char × Value))
    (hk : p1.map Prod.fst = p2.map Prod.fst) (hnd : (p1.map Prod.fst).Nodup)
    (hj1 : ∀ kv ∈ p1, kv.2.isJS = true) (hj2 : ∀ kv ∈ p2, kv.2.isJS = true)
    (h : jsonMembers p1 = jsonMembers p2) : p1 = p2 := by
  induction p1 generalizing p2 with
  | nil =>
    cases p2 with
    | nil => rfl
    | cons _ _ => simp at hk
  | cons kv1 ps1 ih =>
    cases p2 with
    | nil => simp at hk
    | cons kv2 ps2 =>
      obtain ⟨k1, v1⟩ := kv1
      obtain ⟨k2, v2⟩ := kv2
      simp only [List.map_cons, List.cons.injEq] at hk
      obtain ⟨hkk, hks⟩ := hk
      subst hkk
      simp only [List.map_cons, List.nodup_cons] at hnd
      obtain ⟨hnot, hnd2⟩ := hnd
      have hnot2 : k1 ∉ ps2.map Prod.fst := by rw [← hks]; exact hnot
      have hjs1 : ∀ kv ∈ ps1, kv.2.isJS = true := fun kv hkv => hj1 kv (List.mem_cons_of_mem _ hkv)
      have hjs2 : ∀ kv ∈ ps2, kv.2.isJS = true := fun kv hkv => hj2 kv (List.mem_cons_of_mem _ hkv)
      have hjv1 : v1.isJS = true := hj1 (k1, v1) (List.mem_cons_self _ _)
      have hjv2 : v2.isJS = true := hj2 (k1, v2) (List.mem_cons_self _ _)
      cases hv1 : jsonValue v1 with
      | none =>
        have e1 : v1 = .undefined := by
          cases v1 with
          | undefined => rfl
          | string s => cases hv1
          | number n => cases hv1
        cases hv2 : jsonValue v2 with
        | none =>
          have e2 : v2 = .undefined := by
            cases v2 with
            | undefined => rfl
            | string s => cases hv2
            | number n => cases hv2
          simp only [jsonMembers, hv1, hv2, List.nil_append] at h
          rw [ih ps2 hks hnd2 hjs1 hjs2 h, e1, e2]
        | some e =>
          exfalso
          simp only [jsonMembers, hv1, hv2, List.nil_append, List.cons_append,
            List.append_assoc] at h
          exact jsonMembers_ne_of_absent k1 ps1 _ hnot h
      | some e1 =>
        cases hv2 : jsonValue v2 with
        | none =>
          exfalso
          simp only [jsonMembers, hv1, hv2, List.nil_append, List.cons_append,
            List.append_assoc] at h
          exact jsonMembers_ne_of_absent k1 ps2 _ hnot2 h.symm
        | some e2 =>
          simp only [jsonMembers, hv1, hv2, List.cons_append, List.append_assoc,
            List.cons.injEq, true_and] at h
          have h2 := List.append_cancel_left h
          simp only [List.cons.injEq, true_and] at h2
          obtain ⟨hv, ht⟩ := jsonValue_append_inj v1 v2 e1 e2 _ _ hv1 hv2 hjv1 hjv2
            (jsonMembers_head_not_number ps1) (jsonMembers_head_not_number ps2) h2
          rw [ih ps2 hks hnd2 hjs1 hjs2 ht, hv]

theorem cacheKeyOf_inj (a1 a2 : Address) (hj1 : a1.isJS = true) (hj2 : a2.isJS = true)
    (h : cacheKeyOf a1 = cacheKeyOf a2) : a1 = a2 := by
  simp only [Address.isJS, Bool.and_eq_true] at hj1 hj2
  unfold cacheKeyOf at h
  rw [jsonStringify_eq, jsonStringify_eq] at h
  simp only [List.cons.injEq, true_and] at h
  have hdrop := List.append_cancel_right h
  have hm : jsonMembers
      [("city".toList, a1.city), ("street".toList, a1.street),
       ("houseNumber".toList, a1.houseNumber), ("entrance".toList, a1.entrance)] =
    jsonMembers
      [("city".toList, a2.city), ("street".toList, a2.street),
       ("houseNumber".toList, a2.houseNumber), ("entrance".toList, a2.entrance)] := by
    rcases jsonMembers_head
        [("city".toList, a1.city), ("street".toList, a1.street),
         ("houseNumber".toList, a1.houseNumber), ("entrance".toList, a1.entrance)]
      with h1 | ⟨k1, -, x1, h1⟩ <;>
    rcases jsonMembers_head
        [("city".toList, a2.city), ("street".toList, a2.street),
         ("houseNumber".toList, a2.houseNumber), ("entrance".toList, a2.entrance)]
      with h2 | ⟨k2, -, x2, h2⟩
    · rw [h1, h2]
    · rw [h1, h2] at hdrop
      simp [jsonQuote] at hdrop
    · rw [h1, h2] at hdrop
      simp [jsonQuote] at hdrop
    · rw [h1, h2] at hdrop ⊢
      simp only [List.drop_succ_cons, List.drop_zero] at hdrop
      rw [hdrop]
  have hnd : (List.map Prod.fst
      [("city".toList, a1.city), ("street".toList, a1.street),
       ("houseNumber".toList, a1.houseNumber), ("entrance".toList, a1.entrance)]).Nodup := by
    simp only [List.map_cons, List.map_nil]
    decide
  have hp := jsonMembers_inj
    [("city".toList, a1.city), ("street".toList, a1.street),
     ("houseNumber".toList, a1.houseNumber), ("entrance".toList, a1.entrance)]
    [("city".toList, a2.city), ("street".toList, a2.street),
     ("houseNumber".toList, a2.houseNumber), ("entrance".toList, a2.entrance)] rfl hnd
    (by
      intro kv hkv
      simp only [List.mem_cons, List.mem_singleton, List.not_mem_nil, or_false] at hkv
      rcases hkv with rfl | rfl | rfl | rfl
      · exact hj1.1.1.1
      · exact hj1.1.1.2
      · exact hj1.1.2
      · exact hj1.2)
    (by
      intro kv hkv
      simp only [List.mem_cons, List.mem_singleton, List.not_mem_nil, or_false] at hkv
      rcases hkv with rfl | rfl | rfl | rfl
      · exact hj2.1.1.1
      · exact hj2.1.1.2
      · exact hj2.1.2
      · exact hj2.2)
    hm
  simp only [List.cons.injEq, Prod.mk.injEq, true_and, and_true] at hp
  obtain ⟨hc, hs, hh, he⟩ := hp
  cases a1
  cases a2
  simp only at hc hs hh he
  rw [hc, hs, hh, he]

/-- C20. Two addresses that differ in at least one of the fields city, street,
houseNumber and entrance, each field being absent, a string or an integer (a number of
JavaScript with an integer value), have different cache keys; so storing a zipcode for
one address does not change what the cache holds for the other. -/
theorem cacheKeyOf_ne (a1 a2 : Address)
    (hj1 : a1.isJS = true) (hj2 : a2.isJS = true)
    (h : a1.city ≠ a2.city ∨ a1.street ≠ a2.street ∨ a1.houseNumber ≠ a2.houseNumber ∨
      a1.entrance ≠ a2.entrance) :
    cacheKeyOf a1 ≠ cacheKeyOf a2 ∧
    ∀ (cache : Cache) (e : CacheEntry),
      mapGet (mapSet cache (cacheKeyOf a1) e) (cacheKeyOf a2) = mapGet cache (cacheKeyOf a2) := by
  have hne : cacheKeyOf a1 ≠ cacheKeyOf a2 := by
    intro hk
    have := cacheKeyOf_inj a1 a2 hj1 hj2 hk
    subst this
    rcases h with h | h | h | h <;> exact h rfl
  exact ⟨hne, fun cache e => mapGet_mapSet_ne cache _ _ e (Ne.symm hne)⟩

set_option maxRecDepth 100000 in
/-- Witness for C20: the house number 7 as a number and as the string "7", and the house
number 2 ^ 64, written 18446744073709552000 in the key, as a number and as the string of
these digits. -/
theorem cacheKeyOf_ne_witness :
    cacheKeyOf { city := .string "Tel Aviv".toList, street := .string "Frishman".toList,
                 houseNumber := .number 7, entrance := .undefined } ≠
      cacheKeyOf { city := .string "Tel Aviv".toList, street := .string "Frishman".toList,
                   houseNumber := .string "7".toList, entrance := .undefined } ∧
    cacheKeyOf { city := .string "Tel Aviv".toList, street := .string "Frishman".toList,
                 houseNumber := .number 18446744073709551616, entrance := .undefined } ≠
      cacheKeyOf { city := .string "Tel Aviv".toList, street := .string "Frishman".toList,
                   houseNumber := .string "18446744073709552000".toList,
                   entrance := .undefined } :=
  ⟨(cacheKeyOf_ne
      { city := .string "Tel Aviv".toList, street := .string "Frishman".toList,
        houseNumber := .number 7, entrance := .undefined }
      { city := .string "Tel Aviv".toList, street := .string "Frishman".toList,
        houseNumber := .string "7".toList, entrance := .undefined }
      (by decide) (by decide) (Or.inr (Or.inr (Or.inl (by decide))))).1,
    (cacheKeyOf_ne
      { city := .string "Tel Aviv".toList, street := .string "Frishman".toList,
        houseNumber := .number 18446744073709551616, entrance := .undefined }
      { city := .string "Tel Aviv".toList, street := .string "Frishman".toList,
        houseNumber := .string "18446744073709552000".toList, entrance := .undefined }
      (by decide) (by decide) (Or.inr (Or.inr (Or.inl (by decide))))).1⟩

end Mikud
